import Mathlib

/-!
# Verification of the `minecraft-backuproll` retention engine

A shallow embedding of the core data model and algorithms of the
`backuproll` package (`backuproll/core.py` and the legacy
`backuproll.py`), together with proofs and refutations of the
specification's claims about it.

Conventions:
* Python `datetime.datetime` values are embedded as the record `DT`
  of calendar components; comparison of datetimes is lexicographic on
  the component tuple, exactly as in CPython.
* `datetime.date.isocalendar()[1]` (the ISO 8601 week number) is
  computed by `isoWeek`, using the standard ISO week formula over the
  proleptic Gregorian calendar.
* Python lists are Lean `List`s; `sorted(..., key=...)` is
  `List.insertionSort` (a stable sort, like CPython's).
* Filesystem effects are made explicit: mutating operations return the
  updated state together with a trace of `FsEvent`s (directory
  creations, renames, tree removals, symlink updates, subprocess
  invocations).
-/

namespace Backuproll

/-! ## Datetime model

`DT` embeds `datetime.datetime` (to second precision, which is all the
configured date format `%Y-%m-%dT%H:%M:%S` carries). -/

structure DT where
  year : Nat
  month : Nat
  day : Nat
  hour : Nat
  minute : Nat
  second : Nat
deriving DecidableEq, Repr

/-- `datetime.date`: the `(year, month, day)` triple. -/
structure PyDate where
  year : Nat
  month : Nat
  day : Nat
deriving DecidableEq, Repr

/-- `datetime.datetime.date()`. -/
def DT.date (t : DT) : PyDate := ⟨t.year, t.month, t.day⟩

/-- CPython compares datetimes lexicographically on their component
tuple.  We encode the tuple into a lexicographic product. -/
abbrev DTKey := Lex (Nat × Lex (Nat × Lex (Nat × Lex (Nat × Lex (Nat × Nat)))))

def DT.key (t : DT) : DTKey :=
  toLex (t.year, toLex (t.month, toLex (t.day, toLex (t.hour, toLex (t.minute, t.second)))))

/-- Python `a <= b` on datetimes. -/
def DT.le (a b : DT) : Prop := a.key ≤ b.key

instance : DecidableRel DT.le := fun a b => inferInstanceAs (Decidable (a.key ≤ b.key))

/-- Python `a <= b` on dates (lexicographic as well). -/
def PyDate.le (a b : PyDate) : Prop :=
  toLex (a.year, toLex (a.month, a.day)) ≤ toLex (b.year, toLex (b.month, b.day))

instance : DecidableRel PyDate.le := fun a b =>
  inferInstanceAs (Decidable (_ ≤ _))

theorem DT.key_injective : Function.Injective DT.key := by
  intro a b h
  simp only [DT.key, toLex_inj, Prod.mk.injEq] at h
  cases a; cases b; simp_all

instance : IsTotal DT DT.le := ⟨fun a b => le_total a.key b.key⟩
instance : IsTrans DT DT.le := ⟨fun _ _ _ h h' => le_trans h h'⟩
instance : IsAntisymm DT DT.le := ⟨fun _ _ h h' => DT.key_injective (le_antisymm h h')⟩

/-! ## ISO calendar (`date.isocalendar()[1]`) -/

def isLeapYear (y : Nat) : Bool :=
  (y % 4 == 0 && y % 100 != 0) || y % 400 == 0

def daysInMonth (y m : Nat) : Nat :=
  if m = 2 then (if isLeapYear y then 29 else 28)
  else if m = 4 ∨ m = 6 ∨ m = 9 ∨ m = 11 then 30
  else 31

/-- Day-of-year (1-based) of `(y, m, d)`. -/
def dayOfYear (y m d : Nat) : Nat :=
  d + (List.range (m - 1)).foldl (fun acc k => acc + daysInMonth y (k + 1)) 0

/-- Rata Die day number: day 1 is 0001-01-01 (proleptic Gregorian),
which was a Monday. -/
def rataDie (y m d : Nat) : Nat :=
  365 * (y - 1) + (y - 1) / 4 - (y - 1) / 100 + (y - 1) / 400 + dayOfYear y m d

/-- ISO weekday: 1 = Monday, ..., 7 = Sunday. -/
def isoWeekday (y m d : Nat) : Nat :=
  (rataDie y m d - 1) % 7 + 1

/-- Number of ISO weeks (52 or 53) in year `y`. -/
def isoWeeksInYear (y : Nat) : Nat :=
  let p : Nat → Nat := fun yy => (yy + yy / 4 - yy / 100 + yy / 400) % 7
  if p y = 4 ∨ p (y - 1) = 3 then 53 else 52

/-- `date(y, m, d).isocalendar()[1]`: the ISO 8601 week number. -/
def isoWeek (y m d : Nat) : Nat :=
  let w := (10 + dayOfYear y m d - isoWeekday y m d) / 7
  if w = 0 then isoWeeksInYear (y - 1)
  else if isoWeeksInYear y < w then 1
  else w

def DT.isoWeek (t : DT) : Nat := Backuproll.isoWeek t.year t.month t.day

def PyDate.isoWeek (d : PyDate) : Nat := Backuproll.isoWeek d.year d.month d.day

-- Sanity anchors for the ISO-week computation, checked against
-- Python's `datetime.date(...).isocalendar()`.
example : isoWeek 2024 1 1 = 1 := by decide
example : isoWeek 2023 1 1 = 52 := by decide
example : isoWeek 2020 12 31 = 53 := by decide
example : isoWeek 2016 1 3 = 53 := by decide
example : isoWeek 2016 1 4 = 1 := by decide
example : isoWeek 2023 7 12 = 28 := by decide
example : isoWeek 2024 7 10 = 28 := by decide
example : isoWeekday 2024 7 10 = 3 := by decide

/-! ## Retention tier names and retention plans (core.py:29-44) -/

def RETENTION_RECENT : String := "recent"
def RETENTION_DAILY : String := "daily"
def RETENTION_WEEKLY : String := "weekly"
def RETENTION_MONTHLY : String := "monthly"

def RETENTION_GROUPS : List String :=
  [RETENTION_RECENT, RETENTION_DAILY, RETENTION_WEEKLY, RETENTION_MONTHLY]

def RETENTION_MANUAL : List String := ["pre-update", "reverted"]

/-- A retention plan: the `'keep'` mapping from the world config, giving
each auto tier its keep-count (`retention_plan[group]` in the source). -/
structure RetentionPlan where
  recent : Nat
  daily : Nat
  weekly : Nat
  monthly : Nat
deriving DecidableEq, Repr

/-- Dictionary lookup `retention_plan[name]`.  The source only ever
looks up the four auto-tier names; other keys would raise `KeyError`
(out of scope, mapped to 0 here). -/
def RetentionPlan.get (p : RetentionPlan) (name : String) : Nat :=
  if name = RETENTION_RECENT then p.recent
  else if name = RETENTION_DAILY then p.daily
  else if name = RETENTION_WEEKLY then p.weekly
  else if name = RETENTION_MONTHLY then p.monthly
  else 0

/-! ## `BackupRotation.get_next_retain_group` (core.py:312-327)

A direct transcription of the source's control flow, including the
reassignments of `retain_name`.  Note the source sets
`retain_name = RETENTION_DAILY` in *every* disabled-tier fallback
branch (also after the `weekly` check), so the walk never reaches the
`monthly` check from `recent` or `daily` when `weekly` is disabled. -/

def get_next_retain_group (plan : RetentionPlan) (retain_group : String) : Option String :=
  Id.run do
    let mut retain_name := retain_group
    if retain_name = RETENTION_RECENT then
      if plan.get RETENTION_DAILY > 0 then
        return some RETENTION_DAILY
      retain_name := RETENTION_DAILY
    if retain_name = RETENTION_DAILY then
      if plan.get RETENTION_WEEKLY > 0 then
        return some RETENTION_WEEKLY
      retain_name := RETENTION_DAILY
    if retain_name = RETENTION_WEEKLY then
      if plan.get RETENTION_MONTHLY > 0 then
        return some RETENTION_MONTHLY
      retain_name := RETENTION_DAILY
    return none

/-- The behaviour claimed by the spec (§4.3) for `next_tier(t)`: the
first tier strictly above `t` in the chain
`recent → daily → weekly → monthly` whose keep-count is positive,
skipping disabled tiers; `none` when no enabled tier remains above.
This definition follows the spec's words and is compared against the
transcription `get_next_retain_group` of the source. -/
def next_tier_spec (plan : RetentionPlan) (t : String) : Option String :=
  match RETENTION_GROUPS.dropWhile (fun g => g ≠ t) with
  | [] => none
  | _ :: above => (above.filter (fun g => plan.get g > 0)).head?

/-- C2: the source diverges from the claimed "skip disabled tiers,
continue upward" behaviour.  With the weekly tier disabled and the
monthly tier enabled, `get_next_retain_group` from `daily` returns
`none`, whereas the claimed behaviour returns `monthly`; same from
`recent` when both `daily` and `weekly` are disabled.  (The source's
own spec §9 flags this branch as a latent bug: the fallback reassigns
the search name to `daily` instead of advancing it.) -/
theorem get_next_retain_group_reset_bug :
    get_next_retain_group ⟨6, 7, 0, 3⟩ RETENTION_DAILY = none ∧
    next_tier_spec ⟨6, 7, 0, 3⟩ RETENTION_DAILY = some RETENTION_MONTHLY ∧
    get_next_retain_group ⟨6, 0, 0, 3⟩ RETENTION_RECENT = none ∧
    next_tier_spec ⟨6, 0, 0, 3⟩ RETENTION_RECENT = some RETENTION_MONTHLY := by
  decide

/-! ## Process lock (`MinecraftBackupRoll._try_lock`, core.py:883-908)

State of the PID file on disk.  `alive pid` models the outcome of the
liveness probe `os.kill(pid, 0)`: `true` when the signal is delivered
(the process exists), `false` when it raises `ProcessLookupError`. -/

structure LockState where
  pidFileExists : Bool
  pidFileContent : String
  locked : Bool
deriving DecidableEq, Repr

/-- Numeric value of a list of decimal digit characters. -/
def digitsToNat (cs : List Char) : Nat :=
  cs.foldl (fun acc c => acc * 10 + (c.toNat - '0'.toNat)) 0

/-- `int(pidfile.read())`, with `ValueError` mapped to `none`
(the source assigns `pid = None` in that case).  Python's `int()`
accepts an optional sign followed by decimal digits (surrounding
whitespace and digit-group underscores are also legal; the inputs we
evaluate at contain neither). -/
def parsePid (s : String) : Option Int :=
  match s.toList with
  | [] => none
  | '-' :: rest =>
    if rest ≠ [] ∧ rest.all Char.isDigit then some (-(digitsToNat rest : Int)) else none
  | cs =>
    if cs ≠ [] ∧ cs.all Char.isDigit then some (digitsToNat cs) else none

/-- `MinecraftBackupRoll._try_lock` (core.py:883-908).  Returns the
boolean result together with the post-state.  The final block opens the
PID file with mode `'x'` (exclusive creation): if the file still
exists, `FileExistsError` is caught and the function returns `False`
— the stale file is never removed first. -/
def try_lock (alive : Int → Bool) (myPid : Nat) (st : LockState) : Bool × LockState :=
  let blocked :=
    if st.pidFileExists then
      match parsePid st.pidFileContent with
      | some pid => if pid ≠ 0 then alive pid else false  -- `if pid:` truthiness
      | none => false
    else false
  if blocked then
    (false, st)
  else if st.pidFileExists then
    -- `open('x')` raises FileExistsError: acquisition fails
    (false, st)
  else
    (true, { pidFileExists := true, pidFileContent := toString myPid, locked := true })

/-- C5: with a live PID in the file, acquisition fails without blocking
(as claimed); but with a stale PID (liveness probe fails) or
unparseable contents, acquisition also fails — the exclusive-create
`open('x')` hits the still-existing file — instead of proceeding and
recording the caller's PID as the claim states.  The stale branch can
never succeed. -/
theorem try_lock_stale_pidfile_never_acquires :
    (try_lock (fun _ => true) 4242 ⟨true, "1337", false⟩ = (false, ⟨true, "1337", false⟩)) ∧
    (try_lock (fun _ => false) 4242 ⟨true, "99999", false⟩ = (false, ⟨true, "99999", false⟩)) ∧
    (try_lock (fun _ => false) 4242 ⟨true, "notanumber", false⟩
      = (false, ⟨true, "notanumber", false⟩)) ∧
    (try_lock (fun _ => false) 4242 ⟨false, "", false⟩ = (true, ⟨true, "4242", true⟩)) := by
  decide

/-! ## `Backup.finalize` (core.py:105-113) -/

instance {ε α : Type} [DecidableEq ε] [DecidableEq α] : DecidableEq (Except ε α) := fun x y =>
  match x, y with
  | .ok a, .ok b => if h : a = b then .isTrue (by rw [h]) else .isFalse (by simp [h])
  | .error a, .error b => if h : a = b then .isTrue (by rw [h]) else .isFalse (by simp [h])
  | .ok _, .error _ => .isFalse (by simp)
  | .error _, .ok _ => .isFalse (by simp)

inductive PyError
  | backupStoreReadonly
  | valueError
  | osError
  | backupError
  | backupRotation
deriving DecidableEq, Repr

/-- A filesystem modelled as the set of existing directory paths. -/
structure Fs where
  dirs : List String
deriving DecidableEq, Repr

/-- POSIX `rename(2)` as used by `pathlib.Path.rename`: renaming a path
to itself succeeds and performs no action; otherwise the source
directory is moved to the (free) destination name. -/
def Fs.rename (fs : Fs) (src dst : String) : Except PyError Fs :=
  if src ∈ fs.dirs then
    if dst = src then .ok fs
    else if dst ∈ fs.dirs then .error .osError
    else .ok ⟨dst :: fs.dirs.erase src⟩
  else .error .osError

/-- The `Backup` object: `retain_group.directory`, `name`,
`in_progress`, `readonly` and `directory` attributes
(`Backup.__init__`, core.py:84-99). -/
structure BackupObj where
  groupDir : String
  name : String
  in_progress : Bool
  readonly : Bool
  directory : String
deriving DecidableEq, Repr

/-- `Backup.__init__` with `in_progress=True` (core.py:84-99): the
directory is `<group>/<name>.in-progress` and is created eagerly when
missing. -/
def BackupObj.mkInProgress (groupDir name : String) (fs : Fs) : BackupObj × Fs :=
  let dir := groupDir ++ "/" ++ name ++ ".in-progress"
  (⟨groupDir, name, true, false, dir⟩,
   if dir ∈ fs.dirs then fs else ⟨dir :: fs.dirs⟩)

/-- `Backup.finalize` (core.py:105-113), transcribed exactly.  Note the
source updates `self.directory` after the rename but never sets
`self.in_progress = False`. -/
def BackupObj.finalize (b : BackupObj) (fs : Fs) : Except PyError (BackupObj × Fs) :=
  if b.readonly then .error .backupStoreReadonly
  else if b.in_progress then
    match fs.rename b.directory (b.groupDir ++ "/" ++ b.name) with
    | .ok fs' => .ok ({ b with directory := b.groupDir ++ "/" ++ b.name }, fs')
    | .error e => .error e
  else .error .valueError

/-- C4: the first `finalize()` performs the single atomic rename from
the in-progress name to the finalized name, but — because
`in_progress` is never cleared — a *second* call on the same object
succeeds silently (it renames the finalized directory to itself, a
POSIX no-op) instead of failing with an error as claimed.  The
`ValueError` guard only fires for objects constructed with
`in_progress=False`. -/
theorem finalize_twice_succeeds_silently :
    (BackupObj.finalize
        ⟨"g", "world_2024-01-02T03:04:05", true, false, "g/world_2024-01-02T03:04:05.in-progress"⟩
        ⟨["g/world_2024-01-02T03:04:05.in-progress"]⟩
      = .ok (⟨"g", "world_2024-01-02T03:04:05", true, false, "g/world_2024-01-02T03:04:05"⟩,
             ⟨["g/world_2024-01-02T03:04:05"]⟩)) ∧
    (BackupObj.finalize
        ⟨"g", "world_2024-01-02T03:04:05", true, false, "g/world_2024-01-02T03:04:05"⟩
        ⟨["g/world_2024-01-02T03:04:05"]⟩
      = .ok (⟨"g", "world_2024-01-02T03:04:05", true, false, "g/world_2024-01-02T03:04:05"⟩,
             ⟨["g/world_2024-01-02T03:04:05"]⟩)) := by
  decide

/-! ## Backup-name parsing

`Backup.__init__` (core.py:99) runs
`datetime.strptime(name, prefix + dateformat + suffix)` with the
configured date format `%Y-%m-%dT%H:%M:%S` (core.py:429 and the
default config).  We implement that fixed format over `List Char`:
`%Y` matches exactly four digits, the numeric fields match one or two
digits within their ranges, the remaining characters are literal, and
the constructed date must be a valid Gregorian calendar date (else
`strptime` raises `ValueError`). -/

/-- Split a character list on a separator character (like
`str.split(sep)`: `n` separators produce `n + 1` fields). -/
def splitOnChar (sep : Char) : List Char → List (List Char)
  | [] => [[]]
  | c :: rest =>
    let r := splitOnChar sep rest
    if c = sep then [] :: r
    else
      match r with
      | h :: t => (c :: h) :: t
      | [] => [[c]]

/-- A one-or-two-digit numeric field with an upper bound on its value
(mirroring the `strptime` field regexes together with the range checks
of the `datetime` constructor). -/
def parseField2 (hi : Nat) (cs : List Char) : Option Nat :=
  if (cs.length = 1 ∨ cs.length = 2) ∧ cs.all Char.isDigit ∧ digitsToNat cs ≤ hi then
    some (digitsToNat cs)
  else none

/-- `datetime.strptime(s, "%Y-%m-%dT%H:%M:%S")`. -/
def parseTimestamp (cs : List Char) : Option DT :=
  match splitOnChar 'T' cs with
  | [datePart, timePart] =>
    match splitOnChar '-' datePart, splitOnChar ':' timePart with
    | [ys, ms, ds], [hs, mins, ss] =>
      if ys.length = 4 ∧ ys.all Char.isDigit ∧ 1 ≤ digitsToNat ys then
        match parseField2 12 ms, parseField2 31 ds, parseField2 23 hs,
              parseField2 59 mins, parseField2 59 ss with
        | some m, some d, some h, some mi, some s =>
          if 1 ≤ m ∧ 1 ≤ d ∧ d ≤ daysInMonth (digitsToNat ys) m then
            some ⟨digitsToNat ys, m, d, h, mi, s⟩
          else none
        | _, _, _, _, _ => none
      else none
    | _, _ => none
  | _ => none

/-- `datetime.strptime(name, prefix + dateformat + suffix)`: the name
must be the literal prefix, a timestamp in the default format, then
the literal suffix. -/
def parseBackupName (pre suf name : List Char) : Option DT :=
  if pre.isPrefixOf name ∧ suf.isSuffixOf (name.drop pre.length) then
    parseTimestamp ((name.drop pre.length).take ((name.drop pre.length).length - suf.length))
  else none

-- Sanity anchors for the parser.
example : parseTimestamp "2024-01-02T03:04:05".toList = some ⟨2024, 1, 2, 3, 4, 5⟩ := by decide
example : parseTimestamp "2024-02-30T03:04:05".toList = none := by decide
example : parseTimestamp "garbage".toList = none := by decide
example : parseBackupName "w_".toList [] "w_2024-01-02T03:04:05".toList
    = some ⟨2024, 1, 2, 3, 4, 5⟩ := by decide
example : parseBackupName "w_".toList [] "w_junk".toList = none := by decide

/-! ## Retain-group listing (`BackupRetainGroup`, core.py:190-245) -/

/-- Comparison of listed backups by parsed timestamp: the sort key of
`BackupRetainGroup.sorted_backups` (core.py:229-230). -/
def entLE (a b : DT × Bool) : Prop := a.1.key ≤ b.1.key

instance : DecidableRel entLE := fun a b => inferInstanceAs (Decidable (_ ≤ _))

instance : IsTotal (DT × Bool) entLE := ⟨fun a b => le_total a.1.key b.1.key⟩
instance : IsTrans (DT × Bool) entLE := ⟨fun _ _ _ h h' => le_trans h h'⟩

/-- `sorted(backups, key=lambda b: b.datetime)` (core.py:229-230):
CPython's stable sort, embedded as a stable insertion sort. -/
def sortByDT (l : List (DT × Bool)) : List (DT × Bool) := l.insertionSort entLE

/-- `BackupRetainGroup.get_backup` (core.py:190-198) composed with the
timestamp parse of `Backup.__init__` (core.py:99): a trailing
`.in-progress` marker is stripped (yielding an in-progress backup),
then the name is parsed; `strptime` raises `ValueError` on failure. -/
def get_backup_entry (pre suf entryName : List Char) : Except PyError (DT × Bool) :=
  let marker := ".in-progress".toList
  let (name, inProg) :=
    if marker.isSuffixOf entryName then
      (entryName.take (entryName.length - marker.length), true)
    else (entryName, false)
  match parseBackupName pre suf name with
  | some dt => .ok (dt, inProg)
  | none => .error .valueError

/-- The timestamp parse alone: explicitly constructing a `Backup` by
name (core.py:84-99) fails with `ValueError` iff the name does not
parse. -/
def backup_init_datetime (pre suf name : List Char) : Except PyError DT :=
  match parseBackupName pre suf name with
  | some dt => .ok dt
  | none => .error .valueError

/-- A Python list comprehension whose body can raise: the first raise
aborts the whole comprehension with that exception. -/
def mapExcept {α β : Type} (f : α → Except PyError β) : List α → Except PyError (List β)
  | [] => .ok []
  | a :: l =>
    match f a with
    | .error e => .error e
    | .ok b =>
      match mapExcept f l with
      | .ok bs => .ok (b :: bs)
      | .error e => .error e

/-- `BackupRetainGroup.list_all_backups` (core.py:232-239): keep the
directory entries that start with the prefix and end with the suffix,
construct a `Backup` from each — the parse happens inside the loop
with no exception handling — and sort the result by timestamp. -/
def list_all_backups_names (pre suf : List Char) (entries : List (List Char)) :
    Except PyError (List (DT × Bool)) :=
  let folders := entries.filter (fun n => pre.isPrefixOf n && suf.isSuffixOf n)
  match mapExcept (get_backup_entry pre suf) folders with
  | .ok backups => .ok (sortByDT backups)
  | .error e => .error e

/-- If some element of `l` fails under `f`, then `mapExcept f l` fails. -/
theorem mapExcept_error_of_mem {α β : Type} (f : α → Except PyError β) {l : List α} {e : α}
    {err : PyError} (hmem : e ∈ l) (herr : f e = .error err) :
    ∃ err', mapExcept f l = .error err' := by
  induction l with
  | nil => cases hmem
  | cons a l ih =>
    rcases List.mem_cons.mp hmem with rfl | hmem'
    · exact ⟨err, by simp [mapExcept, herr]⟩
    · cases hfa : f a with
      | error e' => exact ⟨e', by simp [mapExcept, hfa]⟩
      | ok b =>
        obtain ⟨err', hl⟩ := ih hmem'
        exact ⟨err', by simp [mapExcept, hfa, hl]⟩

/-- C7 (counterexample): a retain-group directory containing the
well-formed entry `w_2024-01-02T03:04:05` and the foreign entry
`w_junk` (which passes the prefix/suffix filter but fails the
timestamp parse).  `list_all_backups` raises `ValueError` instead of
excluding the malformed entry and returning the remaining backup. -/
theorem list_all_backups_crashes_on_malformed_name :
    list_all_backups_names "w_".toList []
        ["w_2024-01-02T03:04:05".toList, "w_junk".toList]
      = .error .valueError ∧
    list_all_backups_names "w_".toList [] ["w_2024-01-02T03:04:05".toList]
      = .ok [(⟨2024, 1, 2, 3, 4, 5⟩, false)] := by
  decide

/-- C7 (amended): an entry that fails the literal prefix/suffix filter
is excluded from the listing without error; but an entry that passes
the filter and whose timestamp fails to parse makes the whole listing
fail with an error (the `strptime` `ValueError` propagates out of
`list_all_backups`); and explicitly constructing a `Backup` from an
unparseable name is a hard error. -/
theorem list_all_backups_malformed_behaviour (pre suf : List Char)
    (entries : List (List Char)) (bad e : List Char) (err : PyError)
    (hfilter : (pre.isPrefixOf bad && suf.isSuffixOf bad) = false)
    (hmem : e ∈ entries)
    (hpass : (pre.isPrefixOf e && suf.isSuffixOf e) = true)
    (hfail : get_backup_entry pre suf e = .error err) :
    list_all_backups_names pre suf (bad :: entries)
      = list_all_backups_names pre suf entries ∧
    (∃ err', list_all_backups_names pre suf entries = .error err') ∧
    (∀ name, parseBackupName pre suf name = none →
      backup_init_datetime pre suf name = .error .valueError) := by
  refine ⟨?_, ?_, ?_⟩
  · simp [list_all_backups_names, List.filter_cons, hfilter]
  · have hmemf : e ∈ entries.filter (fun n => pre.isPrefixOf n && suf.isSuffixOf n) :=
      List.mem_filter.mpr ⟨hmem, hpass⟩
    obtain ⟨err', hmapm⟩ := mapExcept_error_of_mem (get_backup_entry pre suf) hmemf hfail
    exact ⟨err', by simp only [list_all_backups_names, hmapm]⟩
  · intro name hnone
    simp [backup_init_datetime, hnone]

/-- Witness for the amended C7 theorem at a concrete directory. -/
theorem list_all_backups_malformed_behaviour_witness :
    list_all_backups_names "w_".toList []
        ("junk".toList :: ["w_2024-01-02T03:04:05".toList, "w_junk".toList])
      = list_all_backups_names "w_".toList [] ["w_2024-01-02T03:04:05".toList, "w_junk".toList] ∧
    (∃ err', list_all_backups_names "w_".toList []
        ["w_2024-01-02T03:04:05".toList, "w_junk".toList] = .error err') ∧
    (∀ name, parseBackupName "w_".toList [] name = none →
      backup_init_datetime "w_".toList [] name = .error .valueError) :=
  list_all_backups_malformed_behaviour "w_".toList []
    ["w_2024-01-02T03:04:05".toList, "w_junk".toList] "junk".toList "w_junk".toList
    .valueError (by decide) (by decide) (by decide) (by decide)

/-! ## Collection state and the rotation engine

The on-disk state of one `BackupCollection`: which directories exist
(the collection directory, the retain-group directories) and the
backup entries each retain group holds.  Listing order of `iterdir()`
is unspecified, so the entry list order is arbitrary and every listing
sorts.  Mutating operations additionally return the trace of
filesystem / subprocess effects they perform. -/

/-- One backup directory inside a retain group: its parsed timestamp
and whether it carries the `.in-progress` marker. -/
structure BEntry where
  dt : DT
  inProgress : Bool
deriving DecidableEq, Repr

structure CollState where
  collectionDirExists : Bool
  groupDirs : List String
  entries : List (String × BEntry)
deriving DecidableEq, Repr

/-- The observable filesystem / subprocess effects of the engine. -/
inductive FsEvent
  | mkdirCollection
  | mkdir (group : String)
  | mkdirBackup (group : String) (dt : DT)
  | renameDir (group : String) (dt : DT)
  | rmtree (group : String) (dt : DT) (inProgress : Bool)
  | copytree (toGroup : String) (dt : DT)
  | symlinkUpdate (group : String)
  | subprocess (what : String)
deriving DecidableEq, Repr

/-- Directory-creation events: the only effects not guarded by the
`simulate` flag in the source. -/
def FsEvent.isCreate : FsEvent → Bool
  | .mkdirCollection => true
  | .mkdir _ => true
  | .mkdirBackup _ _ => true
  | _ => false

/-- Outcome of an operation that can raise: the Python exception (if
any), the post-state, and the effect trace up to the raise. -/
structure Res (α : Type) where
  out : Except PyError α
  st : CollState
  ev : List FsEvent
deriving Repr

/-- `BackupRetainGroup.__init__` (core.py:172-188): the group directory
is created when missing — unconditionally, with no `simulate` or
`readonly` guard. -/
def ensureGroupDir (st : CollState) (name : String) : CollState × List FsEvent :=
  if st.groupDirs.contains name then (st, [])
  else ({ st with groupDirs := name :: st.groupDirs }, [.mkdir name])

/-- `BackupCollection.get_retain_group` (core.py:268-272): valid names
construct the group (creating its directory when missing), any other
name raises `BackupError`. -/
def get_retain_group_fs (st : CollState) (name : String) : Res Unit :=
  if RETENTION_GROUPS.contains name || RETENTION_MANUAL.contains name then
    let (st', ev) := ensureGroupDir st name
    ⟨.ok (), st', ev⟩
  else ⟨.error .backupError, st, []⟩

/-- `BackupStore.get_collection` (core.py:287-294, writable store)
followed by `BackupCollection.__init__` (core.py:253-266): the
collection directory is created when missing, then every auto and
manual retain group is instantiated (creating missing directories). -/
def get_collection_fs (st : CollState) : CollState × List FsEvent :=
  let start :=
    if st.collectionDirExists then (st, ([] : List FsEvent))
    else ({ st with collectionDirExists := true }, [.mkdirCollection])
  (RETENTION_GROUPS ++ RETENTION_MANUAL).foldl
    (fun acc g =>
      let (st', ev') := ensureGroupDir acc.1 g
      (st', acc.2 ++ ev'))
    start

/-- The entries of one retain group's directory, in raw (unspecified)
order. -/
def groupEntries (st : CollState) (g : String) : List BEntry :=
  (st.entries.filter (fun p => p.1 == g)).map (·.2)

/-- Ordering of backups by parsed timestamp, the sort key of
`BackupRetainGroup.sorted_backups` (core.py:229-230). -/
def bentLE (a b : BEntry) : Prop := a.dt.key ≤ b.dt.key

instance : DecidableRel bentLE := fun a b => inferInstanceAs (Decidable (_ ≤ _))
instance : IsTotal BEntry bentLE := ⟨fun a b => le_total a.dt.key b.dt.key⟩
instance : IsTrans BEntry bentLE := ⟨fun _ _ _ h h' => le_trans h h'⟩

/-- `BackupRetainGroup.list_all_backups` (core.py:232-239) at the
entry level: all entries of the group, sorted by timestamp (a read-only
operation; every entry of the model state parses by construction). -/
def list_all_backups (st : CollState) (g : String) : List BEntry :=
  (groupEntries st g).insertionSort bentLE

/-- `BackupRetainGroup.list_backups` (core.py:244-245): the finalized
entries, sorted. -/
def list_backups (st : CollState) (g : String) : List BEntry :=
  (list_all_backups st g).filter (fun b => !b.inProgress)

/-- `BackupRetainGroup.list_in_progress_backups` (core.py:241-242). -/
def list_in_progress_backups (st : CollState) (g : String) : List BEntry :=
  (list_all_backups st g).filter (fun b => b.inProgress)

/-- `BackupRetainGroup.get_latest_backup` (core.py:247-251). -/
def get_latest_backup (st : CollState) (g : String) : Option BEntry :=
  (list_backups st g).getLast?

/-- `BackupRetainGroup.get_backups_for_date` (core.py:200-209): the
`recent`/`daily` tiers compare the full date, the `weekly` tier
compares only `isocalendar()[1]` (the ISO week number), the `monthly`
tier compares only the month number; any other group name raises
`BackupRotationError`. -/
def get_backups_for_date (st : CollState) (g : String) (date : PyDate) :
    Except PyError (List BEntry) :=
  let backups := list_backups st g
  if g = RETENTION_DAILY ∨ g = RETENTION_RECENT then
    .ok (backups.filter (fun b => b.dt.date == date))
  else if g = RETENTION_WEEKLY then
    .ok (backups.filter (fun b => b.dt.isoWeek == date.isoWeek))
  else if g = RETENTION_MONTHLY then
    .ok (backups.filter (fun b => b.dt.month == date.month))
  else .error .backupRotation

/-- `BackupRotation.select_promotion_backup` (core.py:329-369).  For a
promotion to `daily`: start from the first same-date backup and
overwrite the selection with each backup whose hour is `< 13` while
scanning the (ascending) list.  For `weekly`/`monthly`: the first
backup of the same ISO week number / month number.  `None` target →
`None`; an unexpected target name raises `BackupRotationError`. -/
def select_promotion_backup (st : CollState) (fromG : String) (toG : Option String)
    (date : PyDate) : Except PyError (Option BEntry) :=
  let backups := list_backups st fromG
  match toG with
  | none => .ok none
  | some t =>
    if t = RETENTION_DAILY then
      let bs := backups.filter (fun b => b.dt.date == date)
      .ok (match bs with
        | [] => none
        | b0 :: _ => some (bs.foldl (fun sel b => if b.dt.hour < 13 then b else sel) b0))
    else if t = RETENTION_WEEKLY then
      let bs := backups.filter (fun b => b.dt.isoWeek == date.isoWeek)
      .ok bs.head?
    else if t = RETENTION_MONTHLY then
      let bs := backups.filter (fun b => b.dt.month == date.month)
      .ok bs.head?
    else .error .backupRotation

/-- `BackupRotation.get_next_retain_group` with its
`collection.get_retain_group` effect: the returned group's directory
is ensured to exist (each `return` path constructs the group object). -/
def get_next_retain_group_fs (plan : RetentionPlan) (st : CollState) (fromG : String) :
    Option String × CollState × List FsEvent :=
  match get_next_retain_group plan fromG with
  | some g =>
    let (st', ev) := ensureGroupDir st g
    (some g, st', ev)
  | none => (none, st, [])

/-- `BackupRotation.should_promote_backup` (core.py:371-380). -/
def should_promote_backup (plan : RetentionPlan) (st : CollState) (fromG : String)
    (date : PyDate) (now : DT) : Res Bool :=
  let (toG, st1, ev1) := get_next_retain_group_fs plan st fromG
  if fromG = RETENTION_RECENT ∧ PyDate.le now.date date ∧ now.hour < 12 then
    ⟨.ok false, st1, ev1⟩
  else
    match toG with
    | some t =>
      match get_backups_for_date st1 t date with
      | .error e => ⟨.error e, st1, ev1⟩
      | .ok bs => ⟨.ok (decide (bs.length < 1) && decide (0 < plan.get t)), st1, ev1⟩
    | none => ⟨.ok false, st1, ev1⟩

/-- `BackupRotation.promote_backup_to_retain_group` (core.py:390-402):
unless simulating, hardlink-copy the backup's directory into the
target group under the same (finalized) name — `shutil.copytree`
raises if the destination exists — and replace the group's `latest`
symlink. -/
def promote_backup_to_retain_group (simulate : Bool) (st : CollState) (b : BEntry)
    (toG : String) : Res Unit :=
  if simulate then ⟨.ok (), st, []⟩
  else if st.entries.contains (toG, b) then ⟨.error .osError, st, []⟩
  else
    ⟨.ok (), { st with entries := (toG, b) :: st.entries },
     [.copytree toG b.dt, .symlinkUpdate toG]⟩

/-- One iteration of the loop in `BackupRotation.promote_backups`
(core.py:404-417) for the group named `groupname`. -/
def promote_step (simulate : Bool) (plan : RetentionPlan) (now : DT)
    (groupname : String) (st : CollState) : Res Unit :=
  let date := now.date
  match get_retain_group_fs st groupname with
  | ⟨.error e, st1, ev1⟩ => ⟨.error e, st1, ev1⟩
  | ⟨.ok _, st1, ev1⟩ =>
    match should_promote_backup plan st1 groupname date now with
    | ⟨.error e, st2, ev2⟩ => ⟨.error e, st2, ev1 ++ ev2⟩
    | ⟨.ok false, st2, ev2⟩ => ⟨.ok (), st2, ev1 ++ ev2⟩
    | ⟨.ok true, st2, ev2⟩ =>
      let (toG, st3, ev3) := get_next_retain_group_fs plan st2 groupname
      match toG with
      | none => ⟨.ok (), st3, ev1 ++ ev2 ++ ev3⟩
      | some t =>
        match select_promotion_backup st3 groupname (some t) date with
        | .error e => ⟨.error e, st3, ev1 ++ ev2 ++ ev3⟩
        | .ok none => ⟨.ok (), st3, ev1 ++ ev2 ++ ev3⟩
        | .ok (some b) =>
          match promote_backup_to_retain_group simulate st3 b t with
          | ⟨.error e, st4, ev4⟩ => ⟨.error e, st4, ev1 ++ ev2 ++ ev3 ++ ev4⟩
          | ⟨.ok _, st4, ev4⟩ => ⟨.ok (), st4, ev1 ++ ev2 ++ ev3 ++ ev4⟩

/-- The loop of `BackupRotation.promote_backups` over the auto tiers. -/
def promote_loop (simulate : Bool) (plan : RetentionPlan) (now : DT) :
    List String → CollState → Res Unit
  | [], st => ⟨.ok (), st, []⟩
  | g :: gs, st =>
    match promote_step simulate plan now g st with
    | ⟨.error e, st', ev⟩ => ⟨.error e, st', ev⟩
    | ⟨.ok _, st', ev⟩ =>
      match promote_loop simulate plan now gs st' with
      | ⟨o, st'', ev'⟩ => ⟨o, st'', ev ++ ev'⟩

/-- `BackupRotation.promote_backups` (core.py:404-417). -/
def promote_backups (simulate : Bool) (plan : RetentionPlan) (now : DT)
    (st : CollState) : Res Unit :=
  promote_loop simulate plan now RETENTION_GROUPS st

/-- Python `l[:-k]` for a natural `k`: all but the last `k` elements
when `k > 0`, but the *empty* list when `k = 0` (since `-0 == 0`, the
slice degenerates to `l[:0]`). -/
def pySliceUpToNeg {α : Type} (l : List α) (k : Nat) : List α :=
  if k = 0 then [] else l.take (l.length - k)

/-- The loop of `BackupRotation.list_backups_to_delete`
(core.py:382-388): for each auto tier, `backups[:-keep]` of the sorted
finalized backups (collecting, with each backup, the group it is
deleted from).  `get_retain_group` on the four auto names always
succeeds; its directory-creation effects are threaded. -/
def lbtd_loop (plan : RetentionPlan) :
    List String → CollState → List (String × BEntry) × CollState × List FsEvent
  | [], st => ([], st, [])
  | g :: gs, st =>
    let (st1, ev1) := ensureGroupDir st g
    let dels := (pySliceUpToNeg (list_backups st1 g) (plan.get g)).map (fun b => (g, b))
    let (rest, st2, ev2) := lbtd_loop plan gs st1
    (dels ++ rest, st2, ev1 ++ ev2)

/-- `BackupRotation.list_backups_to_delete` (core.py:382-388). -/
def list_backups_to_delete (plan : RetentionPlan) (st : CollState) :
    List (String × BEntry) × CollState × List FsEvent :=
  lbtd_loop plan RETENTION_GROUPS st

/-- `Backup.delete` (core.py:115-118) as invoked by the cleanup loops:
unless simulating, `shutil.rmtree` the backup's directory. -/
def delete_backup (simulate : Bool) (st : CollState) (g : String) (b : BEntry) :
    CollState × List FsEvent :=
  if simulate then (st, [])
  else ({ st with entries := st.entries.erase (g, b) }, [.rmtree g b.dt b.inProgress])

/-- `BackupRotation.cleanup_backups` (core.py:419-425). -/
def cleanup_backups (simulate : Bool) (plan : RetentionPlan) (st : CollState) :
    CollState × List FsEvent :=
  let (dels, st1, ev1) := list_backups_to_delete plan st
  dels.foldl
    (fun acc gb =>
      let (st', ev') := delete_backup simulate acc.1 gb.1 gb.2
      (st', acc.2 ++ ev'))
    (st1, ev1)

/-! ## Runner orchestration (`MinecraftBackupRunner`, core.py:496-594)

Hook commands and the rsync binary are external collaborators; their
exit codes are an oracle (`ExtEnv`).  In simulate mode the source
skips every `subprocess.call` and treats the sync as successful. -/

structure RunnerCfg where
  pre_backup_command : Option String
  post_backup_command : Option String
  fail_backup_command : Option String
  simulate : Bool
deriving DecidableEq, Repr

structure ExtEnv where
  rsyncExit : Int
  hookExit : String → Int

/-- `RsyncBackupCommand.run_rsync` (core.py:441-448): run the external
command unless simulating, in which case return exit code 0 without
invoking anything. -/
def run_rsync (simulate : Bool) (env : ExtEnv) : Int × List FsEvent :=
  if simulate then (0, []) else (env.rsyncExit, [.subprocess "rsync"])

/-- `Backup.__init__` with `in_progress=True` (core.py:84-99) as
invoked by `new_empty_backup`: the `.in-progress` directory is created
when missing — with no simulate guard. -/
def new_in_progress_backup (st : CollState) (g : String) (dt : DT) :
    CollState × List FsEvent :=
  if st.entries.contains (g, ⟨dt, true⟩) then (st, [])
  else ({ st with entries := (g, ⟨dt, true⟩) :: st.entries }, [.mkdirBackup g dt])

/-- `Backup.finalize` (core.py:105-113) on the fresh in-progress backup
of `run_blocking`: the single atomic rename to the finalized name
(`os.rename` fails if the finalized directory already exists). -/
def finalize_entry (st : CollState) (g : String) (dt : DT) : Res Unit :=
  if st.entries.contains (g, ⟨dt, false⟩) then ⟨.error .osError, st, []⟩
  else
    ⟨.ok (), { st with entries := (g, ⟨dt, false⟩) :: st.entries.erase (g, ⟨dt, true⟩) },
     [.renameDir g dt]⟩

/-- `RsyncBackupCommand.run_blocking` (core.py:451-480) into the
`recent` group: create the in-progress backup, run rsync, and on a
real successful run finalize it and replace the group-level and
collection-level `latest` symlinks.  Returns the success flag. -/
def run_blocking (simulate : Bool) (env : ExtEnv) (now : DT) (st : CollState) : Res Bool :=
  -- get_latest_backup (read-only), then the in-progress Backup construction
  let (st1, ev1) := new_in_progress_backup st RETENTION_RECENT now
  let (ret, ev2) := run_rsync simulate env
  if simulate then ⟨.ok true, st1, ev1 ++ ev2⟩
  else if ret = 0 then
    match finalize_entry st1 RETENTION_RECENT now with
    | ⟨.error e, st2, ev3⟩ => ⟨.error e, st2, ev1 ++ ev2 ++ ev3⟩
    | ⟨.ok _, st2, ev3⟩ =>
      ⟨.ok true, st2,
       ev1 ++ ev2 ++ ev3 ++ [.symlinkUpdate RETENTION_RECENT, .symlinkUpdate "collection"]⟩
  else ⟨.ok false, st1, ev1 ++ ev2⟩

/-- A hook `subprocess.call` (core.py:546-553, 560-567): skipped
entirely when simulating.  Returns `none` for the exit code when the
call was skipped. -/
def run_hook (simulate : Bool) (env : ExtEnv) (cmd : String) : Option Int × List FsEvent :=
  if simulate then (none, []) else (some (env.hookExit cmd), [.subprocess cmd])

/-- The optional fail-backup hook as run in the `except` clause of
`backup_world` (core.py:570-578); its exit code is ignored. -/
def run_fail_hook (simulate : Bool) (env : ExtEnv) (cmd? : Option String) :
    List FsEvent :=
  match cmd? with
  | none => []
  | some cmd => (run_hook simulate env cmd).2

/-- An optional pre/post hook together with its success flag: `true`
when the hook is absent, skipped (simulate), or exited 0. -/
def run_opt_hook (simulate : Bool) (env : ExtEnv) (cmd? : Option String) :
    Bool × List FsEvent :=
  match cmd? with
  | none => (true, [])
  | some cmd =>
    match run_hook simulate env cmd with
    | (some rc, ev) => (rc = 0, ev)
    | (none, ev) => (true, ev)

/-- `MinecraftBackupRunner.backup_world` (core.py:536-578): collection
lookup, pre-backup hook, sync via `run_blocking`, then post-backup
hook on success; any failure runs the fail-backup hook and re-raises
`BackupError`. -/
def backup_world (cfg : RunnerCfg) (env : ExtEnv) (now : DT) (st : CollState) : Res Unit :=
  let (st0, ev0) := get_collection_fs st
  let (st1, ev1) := ensureGroupDir st0 RETENTION_RECENT
  match run_opt_hook cfg.simulate env cfg.pre_backup_command with
  | (false, evp) =>
    -- pre-backup command failed: BackupError; the except-clause runs
    -- the fail hook and re-raises
    ⟨.error .backupError, st1,
     ev0 ++ ev1 ++ evp ++ run_fail_hook cfg.simulate env cfg.fail_backup_command⟩
  | (true, evp) =>
    match run_blocking cfg.simulate env now st1 with
    | ⟨.error e, st2, ev2⟩ =>
      ⟨.error e, st2,
       ev0 ++ ev1 ++ evp ++ ev2 ++ run_fail_hook cfg.simulate env cfg.fail_backup_command⟩
    | ⟨.ok ret, st2, ev2⟩ =>
      if ret then
        match run_opt_hook cfg.simulate env cfg.post_backup_command with
        | (true, ev3) => ⟨.ok (), st2, ev0 ++ ev1 ++ evp ++ ev2 ++ ev3⟩
        | (false, ev3) =>
          ⟨.error .backupError, st2,
           ev0 ++ ev1 ++ evp ++ ev2 ++ ev3 ++
             run_fail_hook cfg.simulate env cfg.fail_backup_command⟩
      else
        ⟨.error .backupError, st2,
         ev0 ++ ev1 ++ evp ++ ev2 ++ run_fail_hook cfg.simulate env cfg.fail_backup_command⟩

/-- The in-progress sweep of `MinecraftBackupRunner.cleanup_world`
(core.py:520-527) for one retain group: delete (unless simulating)
every in-progress backup of the group. -/
def cleanup_group (simulate : Bool) (g : String) (st : CollState) :
    CollState × List FsEvent :=
  (list_in_progress_backups st g).foldl
    (fun acc b =>
      let (st', ev') := delete_backup simulate acc.1 g b
      (st', acc.2 ++ ev'))
    (st, [])

/-- The `list_retain_groups` loop of `cleanup_world`: each directory
entry of the collection is looked up with `get_retain_group` (a
foreign directory name raises `BackupError`), then its in-progress
backups are deleted. -/
def cleanup_groups_loop (simulate : Bool) : List String → CollState → Res Unit
  | [], st => ⟨.ok (), st, []⟩
  | g :: gs, st =>
    match get_retain_group_fs st g with
    | ⟨.error e, st1, ev1⟩ => ⟨.error e, st1, ev1⟩
    | ⟨.ok _, st1, ev1⟩ =>
      let (st2, ev2) := cleanup_group simulate g st1
      match cleanup_groups_loop simulate gs st2 with
      | ⟨o, st3, ev3⟩ => ⟨o, st3, ev1 ++ ev2 ++ ev3⟩

/-- `MinecraftBackupRunner.cleanup_world` (core.py:520-527). -/
def cleanup_world (simulate : Bool) (st : CollState) : Res Unit :=
  let (st0, ev0) := get_collection_fs st
  match cleanup_groups_loop simulate st0.groupDirs st0 with
  | ⟨o, st1, ev1⟩ => ⟨o, st1, ev0 ++ ev1⟩

/-- `MinecraftBackupRunner.rotate_backups` (core.py:585-594) for one
world: skipped silently without a configured retention plan, otherwise
promote then evict. -/
def rotate_world (simulate : Bool) (plan? : Option RetentionPlan) (now : DT)
    (st : CollState) : Res Unit :=
  match plan? with
  | none => ⟨.ok (), st, []⟩
  | some plan =>
    let (st0, ev0) := get_collection_fs st
    match promote_backups simulate plan now st0 with
    | ⟨.error e, st1, ev1⟩ => ⟨.error e, st1, ev0 ++ ev1⟩
    | ⟨.ok _, st1, ev1⟩ =>
      let (st2, ev2) := cleanup_backups simulate plan st1
      ⟨.ok (), st2, ev0 ++ ev1 ++ ev2⟩

/-- One engine operation on a world, as dispatched by
`MinecraftBackupRoll.do_activity` (core.py:792-816). -/
inductive WorldOp
  | backup (now : DT)
  | rotate (plan? : Option RetentionPlan) (now : DT)
  | cleanup

def run_op (cfg : RunnerCfg) (env : ExtEnv) (op : WorldOp) (st : CollState) : Res Unit :=
  match op with
  | .backup now => backup_world cfg env now st
  | .rotate plan? now => rotate_world cfg.simulate plan? now st
  | .cleanup => cleanup_world cfg.simulate st

/-- A sequence of operations; the first raised exception aborts the
remainder (as in `do_activity`, where the exception propagates). -/
def run_ops (cfg : RunnerCfg) (env : ExtEnv) : List WorldOp → CollState → Res Unit
  | [], st => ⟨.ok (), st, []⟩
  | op :: ops, st =>
    match run_op cfg env op st with
    | ⟨.error e, st1, ev1⟩ => ⟨.error e, st1, ev1⟩
    | ⟨.ok _, st1, ev1⟩ =>
      match run_ops cfg env ops st1 with
      | ⟨o, st2, ev2⟩ => ⟨o, st2, ev1 ++ ev2⟩

/-! ## C3: effects in simulate mode -/

/-- Every event of the trace is a directory creation. -/
def EvOk (l : List FsEvent) : Prop := ∀ e ∈ l, e.isCreate = true

theorem evOk_nil : EvOk [] := by intro e h; cases h

theorem evOk_append {l₁ l₂ : List FsEvent} (h₁ : EvOk l₁) (h₂ : EvOk l₂) :
    EvOk (l₁ ++ l₂) := by
  intro e he
  rcases List.mem_append.mp he with h | h
  · exact h₁ e h
  · exact h₂ e h

theorem evOk_ensureGroupDir (st : CollState) (g : String) :
    EvOk (ensureGroupDir st g).2 := by
  unfold EvOk ensureGroupDir
  split <;> simp [FsEvent.isCreate]

theorem evOk_get_retain_group_fs (st : CollState) (g : String) :
    EvOk (get_retain_group_fs st g).ev := by
  unfold get_retain_group_fs
  split
  · exact evOk_ensureGroupDir st g
  · exact evOk_nil

theorem evOk_collection_fold (gs : List String) :
    ∀ acc : CollState × List FsEvent, EvOk acc.2 →
      EvOk ((gs.foldl
        (fun acc g =>
          let (st', ev') := ensureGroupDir acc.1 g
          (st', acc.2 ++ ev')) acc).2) := by
  induction gs with
  | nil => intro acc h; exact h
  | cons g gs ih =>
    intro acc h
    simp only [List.foldl_cons]
    exact ih _ (evOk_append h (evOk_ensureGroupDir acc.1 g))

theorem evOk_get_collection_fs (st : CollState) : EvOk (get_collection_fs st).2 := by
  unfold get_collection_fs
  apply evOk_collection_fold
  split <;> simp [EvOk, FsEvent.isCreate]

theorem evOk_get_next_retain_group_fs (plan : RetentionPlan) (st : CollState)
    (g : String) : EvOk (get_next_retain_group_fs plan st g).2.2 := by
  unfold get_next_retain_group_fs
  split
  · exact evOk_ensureGroupDir st _
  · exact evOk_nil

theorem evOk_should_promote_backup (plan : RetentionPlan) (st : CollState)
    (fromG : String) (date : PyDate) (now : DT) :
    EvOk (should_promote_backup plan st fromG date now).ev := by
  unfold should_promote_backup
  have h := evOk_get_next_retain_group_fs plan st fromG
  rcases hg : get_next_retain_group_fs plan st fromG with ⟨toG, st1, ev1⟩
  rw [hg] at h
  dsimp only at h
  try simp only [hg]
  try dsimp only
  split
  · exact h
  · cases toG with
    | none => exact h
    | some t => cases hb : get_backups_for_date st1 t date <;> simp only [hb] <;> exact h

theorem evOk_promote_backup_to_retain_group (st : CollState) (b : BEntry)
    (toG : String) : EvOk (promote_backup_to_retain_group true st b toG).ev := by
  unfold promote_backup_to_retain_group
  simp [evOk_nil]

theorem evOk_promote_step (plan : RetentionPlan) (now : DT) (g : String)
    (st : CollState) : EvOk (promote_step true plan now g st).ev := by
  unfold promote_step
  have h1 := evOk_get_retain_group_fs st g
  rcases h1e : get_retain_group_fs st g with ⟨o1, st1, ev1⟩
  rw [h1e] at h1
  dsimp only at h1
  try simp only [h1e]
  try dsimp only
  cases o1 with
  | error e => exact h1
  | ok u =>
    have h2 := evOk_should_promote_backup plan st1 g now.date now
    rcases h2e : should_promote_backup plan st1 g now.date now with ⟨o2, st2, ev2⟩
    rw [h2e] at h2
    dsimp only at h2
    try simp only [h2e]
    cases o2 with
    | error e => exact evOk_append h1 h2
    | ok sp =>
      cases sp with
      | false => exact evOk_append h1 h2
      | true =>
        have h3 := evOk_get_next_retain_group_fs plan st2 g
        rcases h3e : get_next_retain_group_fs plan st2 g with ⟨toG, st3, ev3⟩
        rw [h3e] at h3
        dsimp only at h3
        try simp only [h3e]
        try dsimp only
        cases toG with
        | none => exact evOk_append (evOk_append h1 h2) h3
        | some t =>
          cases h4e : select_promotion_backup st3 g (some t) now.date with
          | error e => simp only [h4e]; exact evOk_append (evOk_append h1 h2) h3
          | ok b? =>
            simp only [h4e]
            cases b? with
            | none => exact evOk_append (evOk_append h1 h2) h3
            | some b =>
              have h5 := evOk_promote_backup_to_retain_group st3 b t
              rcases h5e : promote_backup_to_retain_group true st3 b t with ⟨o5, st4, ev4⟩
              rw [h5e] at h5
              dsimp only at h5
              try simp only [h5e]
              cases o5 with
              | error e => exact evOk_append (evOk_append (evOk_append h1 h2) h3) h5
              | ok u' => exact evOk_append (evOk_append (evOk_append h1 h2) h3) h5

theorem evOk_promote_loop (plan : RetentionPlan) (now : DT) (gs : List String) :
    ∀ st : CollState, EvOk (promote_loop true plan now gs st).ev := by
  induction gs with
  | nil => intro st; exact evOk_nil
  | cons g gs ih =>
    intro st
    unfold promote_loop
    have h1 := evOk_promote_step plan now g st
    split
    next st1 ev1 heq => rw [heq] at h1; exact h1
    next st1 ev1 heq =>
      rw [heq] at h1
      have h2 := ih st1
      split
      next o st2 ev2 heq2 =>
        rw [heq2] at h2
        exact evOk_append h1 h2

theorem evOk_promote_backups (plan : RetentionPlan) (now : DT) (st : CollState) :
    EvOk (promote_backups true plan now st).ev :=
  evOk_promote_loop plan now RETENTION_GROUPS st

theorem evOk_lbtd_loop (plan : RetentionPlan) (gs : List String) :
    ∀ st : CollState, EvOk (lbtd_loop plan gs st).2.2 := by
  induction gs with
  | nil => intro st; exact evOk_nil
  | cons g gs ih =>
    intro st
    unfold lbtd_loop
    exact evOk_append (evOk_ensureGroupDir st g) (ih _)

theorem evOk_cleanup_fold (dels : List (String × BEntry)) :
    ∀ acc : CollState × List FsEvent, EvOk acc.2 →
      EvOk ((dels.foldl
        (fun acc gb =>
          let (st', ev') := delete_backup true acc.1 gb.1 gb.2
          (st', acc.2 ++ ev')) acc).2) := by
  induction dels with
  | nil => intro acc h; exact h
  | cons gb dels ih =>
    intro acc h
    simp only [List.foldl_cons]
    apply ih
    simp only [delete_backup, if_pos rfl]
    simpa using h

theorem evOk_cleanup_backups (plan : RetentionPlan) (st : CollState) :
    EvOk (cleanup_backups true plan st).2 := by
  unfold cleanup_backups
  exact evOk_cleanup_fold _ _ (evOk_lbtd_loop plan RETENTION_GROUPS st)

theorem evOk_new_in_progress_backup (st : CollState) (g : String) (dt : DT) :
    EvOk (new_in_progress_backup st g dt).2 := by
  unfold EvOk new_in_progress_backup
  split <;> simp [FsEvent.isCreate]

theorem evOk_run_blocking (env : ExtEnv) (now : DT) (st : CollState) :
    EvOk (run_blocking true env now st).ev := by
  unfold run_blocking
  have h1 := evOk_new_in_progress_backup st RETENTION_RECENT now
  rcases h1e : new_in_progress_backup st RETENTION_RECENT now with ⟨st1, ev1⟩
  rw [h1e] at h1
  dsimp only at h1
  try simp only [h1e]
  simp only [run_rsync, if_pos rfl]
  simpa using h1

theorem evOk_run_hook (env : ExtEnv) (cmd : String) :
    EvOk (run_hook true env cmd).2 := by
  simp [run_hook, evOk_nil]

theorem evOk_run_fail_hook (env : ExtEnv) (cmd? : Option String) :
    EvOk (run_fail_hook true env cmd?) := by
  cases cmd? with
  | none => exact evOk_nil
  | some cmd => exact evOk_run_hook env cmd

theorem evOk_run_opt_hook (env : ExtEnv) (cmd? : Option String) :
    EvOk (run_opt_hook true env cmd?).2 := by
  cases cmd? with
  | none => exact evOk_nil
  | some cmd =>
    have h := evOk_run_hook env cmd
    unfold run_opt_hook
    rcases he : run_hook true env cmd with ⟨rc?, ev⟩
    rw [he] at h
    dsimp only at h
    try simp only [he]
    cases rc? <;> exact h

theorem evOk_backup_world (cfg : RunnerCfg) (env : ExtEnv) (now : DT) (st : CollState)
    (hsim : cfg.simulate = true) : EvOk (backup_world cfg env now st).ev := by
  unfold backup_world
  rw [hsim]
  have h0 := evOk_get_collection_fs st
  rcases h0e : get_collection_fs st with ⟨st0, ev0⟩
  rw [h0e] at h0
  dsimp only at h0
  try simp only [h0e]
  try dsimp only
  have h1 := evOk_ensureGroupDir st0 RETENTION_RECENT
  rcases h1e : ensureGroupDir st0 RETENTION_RECENT with ⟨st1, ev1⟩
  rw [h1e] at h1
  dsimp only at h1
  try simp only [h1e]
  try dsimp only
  have hp := evOk_run_opt_hook env cfg.pre_backup_command
  rcases hpe : run_opt_hook true env cfg.pre_backup_command with ⟨ok?, evp⟩
  rw [hpe] at hp
  dsimp only at hp
  try simp only [hpe]
  cases ok? with
  | false =>
    exact evOk_append (evOk_append (evOk_append h0 h1) hp)
      (evOk_run_fail_hook env cfg.fail_backup_command)
  | true =>
    have hrb := evOk_run_blocking env now st1
    rcases hrbe : run_blocking true env now st1 with ⟨orb, st2, ev2⟩
    rw [hrbe] at hrb
    dsimp only at hrb
    try simp only [hrbe]
    cases orb with
    | error e =>
      exact evOk_append (evOk_append (evOk_append (evOk_append h0 h1) hp) hrb)
        (evOk_run_fail_hook env cfg.fail_backup_command)
    | ok ret =>
      cases ret with
      | true =>
        have hq := evOk_run_opt_hook env cfg.post_backup_command
        rcases hqe : run_opt_hook true env cfg.post_backup_command with ⟨ok3, ev3⟩
        rw [hqe] at hq
        dsimp only at hq
        try simp only [hqe]
        simp only [if_true]
        cases ok3 with
        | true => exact evOk_append (evOk_append (evOk_append (evOk_append h0 h1) hp) hrb) hq
        | false =>
          exact evOk_append
            (evOk_append (evOk_append (evOk_append (evOk_append h0 h1) hp) hrb) hq)
            (evOk_run_fail_hook env cfg.fail_backup_command)
      | false =>
        simp only [Bool.false_eq_true, if_false]
        exact evOk_append (evOk_append (evOk_append (evOk_append h0 h1) hp) hrb)
          (evOk_run_fail_hook env cfg.fail_backup_command)

theorem evOk_cleanup_group_fold (g : String) (bs : List BEntry) :
    ∀ acc : CollState × List FsEvent, EvOk acc.2 →
      EvOk ((bs.foldl
        (fun acc b =>
          let (st', ev') := delete_backup true acc.1 g b
          (st', acc.2 ++ ev')) acc).2) := by
  induction bs with
  | nil => intro acc h; exact h
  | cons b bs ih =>
    intro acc h
    simp only [List.foldl_cons]
    apply ih
    simp only [delete_backup, if_pos rfl]
    simpa using h

theorem evOk_cleanup_group (g : String) (st : CollState) :
    EvOk (cleanup_group true g st).2 :=
  evOk_cleanup_group_fold g _ _ evOk_nil

theorem evOk_cleanup_groups_loop (gs : List String) :
    ∀ st : CollState, EvOk (cleanup_groups_loop true gs st).ev := by
  induction gs with
  | nil => intro st; exact evOk_nil
  | cons g gs ih =>
    intro st
    unfold cleanup_groups_loop
    have h1 := evOk_get_retain_group_fs st g
    rcases h1e : get_retain_group_fs st g with ⟨o1, st1, ev1⟩
    rw [h1e] at h1
    dsimp only at h1
    try simp only [h1e]
    try dsimp only
    cases o1 with
    | error e => exact h1
    | ok u =>
      have h2 := evOk_cleanup_group g st1
      rcases h2e : cleanup_group true g st1 with ⟨st2, ev2⟩
      rw [h2e] at h2
      dsimp only at h2
      try simp only [h2e]
      try dsimp only
      have h3 := ih st2
      rcases h3e : cleanup_groups_loop true gs st2 with ⟨o3, st3, ev3⟩
      rw [h3e] at h3
      dsimp only at h3
      try simp only [h3e]
      exact evOk_append (evOk_append h1 h2) h3

theorem evOk_cleanup_world (st : CollState) : EvOk (cleanup_world true st).ev := by
  unfold cleanup_world
  have h0 := evOk_get_collection_fs st
  rcases h0e : get_collection_fs st with ⟨st0, ev0⟩
  rw [h0e] at h0
  dsimp only at h0
  try simp only [h0e]
  try dsimp only
  have h1 := evOk_cleanup_groups_loop st0.groupDirs st0
  rcases h1e : cleanup_groups_loop true st0.groupDirs st0 with ⟨o1, st1, ev1⟩
  rw [h1e] at h1
  dsimp only at h1
  try simp only [h1e]
  exact evOk_append h0 h1

theorem evOk_rotate_world (plan? : Option RetentionPlan) (now : DT) (st : CollState) :
    EvOk (rotate_world true plan? now st).ev := by
  unfold rotate_world
  cases plan? with
  | none => exact evOk_nil
  | some plan =>
    have h0 := evOk_get_collection_fs st
    rcases h0e : get_collection_fs st with ⟨st0, ev0⟩
    rw [h0e] at h0
    dsimp only at h0
    try simp only [h0e]
    try dsimp only
    have h1 := evOk_promote_backups plan now st0
    rcases h1e : promote_backups true plan now st0 with ⟨o1, st1, ev1⟩
    rw [h1e] at h1
    dsimp only at h1
    try simp only [h1e]
    cases o1 with
    | error e => exact evOk_append h0 h1
    | ok u => exact evOk_append (evOk_append h0 h1) (evOk_cleanup_backups plan st1)

theorem evOk_run_op (cfg : RunnerCfg) (env : ExtEnv) (op : WorldOp) (st : CollState)
    (hsim : cfg.simulate = true) : EvOk (run_op cfg env op st).ev := by
  cases op with
  | backup now => exact evOk_backup_world cfg env now st hsim
  | rotate plan? now => rw [run_op, hsim]; exact evOk_rotate_world plan? now st
  | cleanup => rw [run_op, hsim]; exact evOk_cleanup_world st

/-- C3 (amended): in simulate mode, for any sequence of
`backup`/`rotate`/`cleanup` operations from any state, the engine
performs no rename, no directory-tree removal, no hardlink copy, no
symlink replacement and invokes no external rsync or hook command —
every event in the trace is a directory creation (the collection and
retain-group skeleton directories, and the in-progress backup
directory, are created even when simulating). -/
theorem simulate_trace_only_creates (cfg : RunnerCfg) (env : ExtEnv)
    (ops : List WorldOp) (st : CollState) (hsim : cfg.simulate = true) :
    ∀ e ∈ (run_ops cfg env ops st).ev, e.isCreate = true := by
  induction ops generalizing st with
  | nil => intro e he; cases he
  | cons op ops ih =>
    have h1 := evOk_run_op cfg env op st hsim
    unfold run_ops
    rcases h1e : run_op cfg env op st with ⟨o1, st1, ev1⟩
    rw [h1e] at h1
    dsimp only at h1
    try simp only [h1e]
    try dsimp only
    cases o1 with
    | error e => exact h1
    | ok u =>
      have h2 := ih st1
      rcases h2e : run_ops cfg env ops st1 with ⟨o2, st2, ev2⟩
      rw [h2e] at h2
      dsimp only at h2
      try simp only [h2e]
      exact evOk_append h1 h2

/-- Witness: the amended C3 theorem applied to a concrete simulate-mode
run (backup, then rotate, then cleanup, from an empty store). -/
theorem simulate_trace_only_creates_witness :
    (⟨none, none, none, true⟩ : RunnerCfg).simulate = true ∧
    ∀ e ∈ (run_ops ⟨none, none, none, true⟩ ⟨1, fun _ => 1⟩
        [.backup ⟨2024, 1, 2, 13, 0, 0⟩,
         .rotate (some ⟨6, 7, 4, 12⟩) ⟨2024, 1, 2, 13, 0, 0⟩,
         .cleanup]
        ⟨false, [], []⟩).ev, e.isCreate = true :=
  ⟨rfl, simulate_trace_only_creates _ _ _ _ rfl⟩

/-- C3 (counterexample): the claim "no directory is created" fails —
even in simulate mode, a single `backup` operation from an empty store
creates the collection directory, the six retain-group directories and
the in-progress backup directory on disk (`Backup.__init__` and the
directory-skeleton constructors have no simulate guard). -/
theorem simulate_backup_creates_directories :
    (run_ops ⟨none, none, none, true⟩ ⟨1, fun _ => 1⟩
        [.backup ⟨2024, 1, 2, 13, 0, 0⟩] ⟨false, [], []⟩).ev
      = [.mkdirCollection, .mkdir "recent", .mkdir "daily", .mkdir "weekly",
         .mkdir "monthly", .mkdir "pre-update", .mkdir "reverted",
         .mkdirBackup "recent" ⟨2024, 1, 2, 13, 0, 0⟩] ∧
    (run_ops ⟨none, none, none, true⟩ ⟨1, fun _ => 1⟩
        [.backup ⟨2024, 1, 2, 13, 0, 0⟩] ⟨false, [], []⟩).st.entries
      = [(RETENTION_RECENT, ⟨⟨2024, 1, 2, 13, 0, 0⟩, true⟩)] := by
  decide

/-! ## C1: eviction (`list_backups_to_delete` / `cleanup_backups`) -/

/-- The entries of group `g` in a raw entry list. -/
def entriesOf (E : List (String × BEntry)) (g : String) : List BEntry :=
  (E.filter (fun p => p.1 == g)).map (·.2)

theorem groupEntries_eq_entriesOf (st : CollState) (g : String) :
    groupEntries st g = entriesOf st.entries g := rfl

theorem ensureGroupDir_entries (st : CollState) (g : String) :
    (ensureGroupDir st g).1.entries = st.entries := by
  unfold ensureGroupDir
  split <;> rfl

theorem list_backups_entries_congr {st st' : CollState} (g : String)
    (h : st.entries = st'.entries) : list_backups st g = list_backups st' g := by
  simp [list_backups, list_all_backups, groupEntries, h]

@[simp]
theorem list_backups_ensureGroupDir (st : CollState) (g g' : String) :
    list_backups (ensureGroupDir st g).1 g' = list_backups st g' :=
  list_backups_entries_congr g' (ensureGroupDir_entries st g)

/-- The per-group slice of `list_backups_to_delete`, tagged with its
group. -/
def dFor (plan : RetentionPlan) (st : CollState) (g : String) : List (String × BEntry) :=
  (pySliceUpToNeg (list_backups st g) (plan.get g)).map (fun b => (g, b))

theorem list_backups_to_delete_spec (plan : RetentionPlan) (st : CollState) :
    (list_backups_to_delete plan st).1
      = dFor plan st RETENTION_RECENT ++ (dFor plan st RETENTION_DAILY ++
          (dFor plan st RETENTION_WEEKLY ++ (dFor plan st RETENTION_MONTHLY ++ []))) ∧
    (list_backups_to_delete plan st).2.1.entries = st.entries := by
  unfold list_backups_to_delete RETENTION_GROUPS
  simp [lbtd_loop, dFor, ensureGroupDir_entries,
    list_backups_entries_congr _ (ensureGroupDir_entries _ _)]

theorem cleanup_fold_entries (dels : List (String × BEntry)) :
    ∀ acc : CollState × List FsEvent,
      ((dels.foldl
        (fun acc gb =>
          let (st', ev') := delete_backup false acc.1 gb.1 gb.2
          (st', acc.2 ++ ev')) acc).1).entries
        = List.foldl List.erase acc.1.entries dels := by
  induction dels with
  | nil => intro acc; rfl
  | cons d dels ih =>
    intro acc
    simp only [List.foldl_cons]
    rw [ih]
    rfl

/-- After `cleanup_backups` (not simulating), the entry list is the
original minus the selected deletions. -/
theorem cleanup_backups_entries (plan : RetentionPlan) (st : CollState) :
    (cleanup_backups false plan st).1.entries
      = st.entries.diff (list_backups_to_delete plan st).1 := by
  unfold cleanup_backups
  rw [List.diff_eq_foldl]
  rcases h : list_backups_to_delete plan st with ⟨dels, st1, ev1⟩
  have hentries : st1.entries = st.entries := by
    have := (list_backups_to_delete_spec plan st).2
    rw [h] at this
    exact this
  rw [cleanup_fold_entries dels (st1, ev1), hentries]

theorem entriesOf_erase (E : List (String × BEntry)) (g : String) (p : String × BEntry) :
    entriesOf (E.erase p) g
      = if p.1 = g then (entriesOf E g).erase p.2 else entriesOf E g := by
  obtain ⟨pg, pb⟩ := p
  induction E with
  | nil => simp [entriesOf]
  | cons e E ih =>
    obtain ⟨eg, eb⟩ := e
    simp only [entriesOf, List.erase_cons, List.filter_cons] at ih ⊢
    by_cases h1 : eg = pg <;> by_cases h2 : eb = pb <;> by_cases h3 : pg = g <;>
      by_cases h4 : eg = g <;>
      subst_eqs <;> simp_all [List.erase_cons, entriesOf, List.filter_cons]

/-- Erasing tagged entries commutes with projecting onto one group:
only the erasures tagged with that group act, in order. -/
theorem entriesOf_foldl_erase (D : List (String × BEntry)) :
    ∀ E : List (String × BEntry), ∀ g,
      entriesOf (List.foldl List.erase E D) g
        = List.foldl List.erase (entriesOf E g) ((D.filter (fun p => p.1 == g)).map (·.2)) := by
  induction D with
  | nil => intro E g; rfl
  | cons d D ih =>
    intro E g
    simp only [List.foldl_cons, List.filter_cons]
    rw [ih (E.erase d) g, entriesOf_erase]
    by_cases hd : d.1 = g
    · simp [hd]
    · simp [hd, if_neg hd]

theorem filter_erase_of_pred {q : BEntry → Bool} (b : BEntry) (hb : q b = true) :
    ∀ l : List BEntry, (l.erase b).filter q = (l.filter q).erase b := by
  intro l
  induction l with
  | nil => simp
  | cons a l ih =>
    by_cases ha : a = b
    · subst ha
      simp [List.erase_cons, List.filter_cons, hb]
    · rw [List.erase_cons_tail (by simpa using ha)]
      by_cases hqa : q a = true
      · simp only [List.filter_cons, hqa, if_pos]
        rw [List.erase_cons_tail (by simpa using ha), ih]
      · simp only [List.filter_cons] at ih ⊢
        simp [hqa, ih]

theorem filter_diff_of_pred {q : BEntry → Bool} (B : List BEntry)
    (hB : ∀ b ∈ B, q b = true) :
    ∀ l : List BEntry, (l.diff B).filter q = (l.filter q).diff B := by
  induction B with
  | nil => intro l; simp
  | cons b B ih =>
    intro l
    rw [List.diff_cons, List.diff_cons,
      ih (fun x hx => hB x (List.mem_cons_of_mem b hx)) (l.erase b),
      filter_erase_of_pred b (hB b (List.mem_cons_self b B))]

/-- `(l₁ ++ l₂).diff l₁ = l₂`. -/
theorem append_diff_self_left {α : Type} [DecidableEq α] (l₁ l₂ : List α) :
    (l₁ ++ l₂).diff l₁ = l₂ := by
  induction l₁ with
  | nil => simp
  | cons a l ih => simpa [List.diff_cons] using ih

/-- Two sorted lists of backups that are permutations of each other and
have pairwise-distinct timestamps are equal (`bentLE` is antisymmetric
up to equal timestamps; entries on disk within one group have distinct
names, hence distinct timestamps). -/
theorem eq_of_perm_sorted_nodup_dt :
    ∀ {l₁ l₂ : List BEntry}, l₁.Perm l₂ → l₁.Sorted bentLE → l₂.Sorted bentLE →
      ((l₁.map (·.dt)).Nodup) → l₁ = l₂ := by
  intro l₁
  induction l₁ with
  | nil =>
    intro l₂ hp _ _ _
    exact (hp.nil_eq).symm ▸ rfl
  | cons a t₁ ih =>
    intro l₂ hp hs₁ hs₂ hnd
    cases l₂ with
    | nil => exact absurd hp.symm.nil_eq (by simp)
    | cons b t₂ =>
      have hab : a = b := by
        by_contra hne
        have hamem : a ∈ b :: t₂ := hp.subset (List.mem_cons_self a t₁)
        have hbmem : b ∈ a :: t₁ := hp.symm.subset (List.mem_cons_self b t₂)
        have hat2 : a ∈ t₂ := by
          rcases List.mem_cons.mp hamem with h | h
          · exact absurd h hne
          · exact h
        have hbt1 : b ∈ t₁ := by
          rcases List.mem_cons.mp hbmem with h | h
          · exact absurd h.symm hne
          · exact h
        have h1 : bentLE a b := List.rel_of_sorted_cons hs₁ b hbt1
        have h2 : bentLE b a := List.rel_of_sorted_cons hs₂ a hat2
        have hdt : a.dt = b.dt := DT.key_injective (le_antisymm h1 h2)
        have : a.dt ∈ t₁.map (·.dt) := List.mem_map.mpr ⟨b, hbt1, hdt.symm⟩
        exact (List.nodup_cons.mp hnd).1 this
      subst hab
      have ht : t₁.Perm t₂ := hp.cons_inv
      have := ih ht hs₁.of_cons hs₂.of_cons (List.nodup_cons.mp hnd).2
      rw [this]

theorem filter_tagged (g' g : String) (l : List BEntry) :
    ((l.map (fun b => (g', b))).filter (fun p => p.1 == g)).map (·.2)
      = if g' = g then l else [] := by
  induction l with
  | nil => simp
  | cons b l ih => by_cases h : g' = g <;> simp_all [List.filter_cons]

/-- The deletions selected for an auto tier are exactly the Python
slice `backups[:-keep]` of that tier's sorted finalized backups. -/
theorem delsProj_auto (plan : RetentionPlan) (st : CollState) (g : String)
    (hg : g ∈ RETENTION_GROUPS) :
    ((list_backups_to_delete plan st).1.filter (fun p => p.1 == g)).map (·.2)
      = pySliceUpToNeg (list_backups st g) (plan.get g) := by
  rw [(list_backups_to_delete_spec plan st).1]
  simp only [RETENTION_GROUPS, List.mem_cons, List.not_mem_nil, or_false] at hg
  rcases hg with rfl | rfl | rfl | rfl <;>
    simp [dFor, List.filter_append, filter_tagged, RETENTION_RECENT, RETENTION_DAILY,
      RETENTION_WEEKLY, RETENTION_MONTHLY]

/-- Manual tiers are never selected for deletion. -/
theorem delsProj_manual (plan : RetentionPlan) (st : CollState) (g : String)
    (hg : g ∈ RETENTION_MANUAL) :
    ((list_backups_to_delete plan st).1.filter (fun p => p.1 == g)).map (·.2) = [] := by
  rw [(list_backups_to_delete_spec plan st).1]
  simp only [RETENTION_MANUAL, List.mem_cons, List.not_mem_nil, or_false] at hg
  rcases hg with rfl | rfl <;>
    simp [dFor, List.filter_append, filter_tagged, RETENTION_RECENT, RETENTION_DAILY,
      RETENTION_WEEKLY, RETENTION_MONTHLY]

theorem cleanup_groupEntries (plan : RetentionPlan) (st : CollState) (g : String) :
    groupEntries (cleanup_backups false plan st).1 g
      = (groupEntries st g).diff
          (((list_backups_to_delete plan st).1.filter (fun p => p.1 == g)).map (·.2)) := by
  rw [groupEntries_eq_entriesOf, cleanup_backups_entries, List.diff_eq_foldl,
    entriesOf_foldl_erase, ← List.diff_eq_foldl, ← groupEntries_eq_entriesOf]

theorem sorted_list_backups (st : CollState) (g : String) :
    (list_backups st g).Sorted bentLE :=
  (List.sorted_insertionSort bentLE (groupEntries st g)).filter _

theorem cleanup_unchanged_group (plan : RetentionPlan) (st : CollState) (g : String)
    (h0 : ((list_backups_to_delete plan st).1.filter (fun p => p.1 == g)).map (·.2) = []) :
    list_backups (cleanup_backups false plan st).1 g = list_backups st g := by
  have hge := cleanup_groupEntries plan st g
  rw [h0, List.diff_nil] at hge
  simp [list_backups, list_all_backups, hge]

/-- After `cleanup_backups`, an auto tier with a positive keep-count
holds exactly the suffix of its sorted finalized backups. -/
theorem cleanup_kept_group (plan : RetentionPlan) (st : CollState) (g : String)
    (hg : g ∈ RETENTION_GROUPS) (hN : plan.get g ≠ 0)
    (hnd : ((list_backups st g).map (·.dt)).Nodup) :
    list_backups (cleanup_backups false plan st).1 g
      = (list_backups st g).drop ((list_backups st g).length - plan.get g) := by
  have hproj := delsProj_auto plan st g hg
  rw [pySliceUpToNeg, if_neg hN] at hproj
  have hge := cleanup_groupEntries plan st g
  rw [hproj] at hge
  set S := list_backups st g with hS
  set k := S.length - plan.get g with hk
  have hq : ∀ b ∈ S.take k, (!b.inProgress) = true := by
    intro b hb
    have hbS : b ∈ S := List.mem_of_mem_take hb
    have hmem : b ∈ (list_all_backups st g).filter (fun b => !b.inProgress) := hbS
    exact (List.mem_filter.mp hmem).2
  have hXq : List.Perm ((groupEntries st g).filter (fun b => !b.inProgress)) S :=
    ((List.perm_insertionSort bentLE (groupEntries st g)).filter
      (fun b => !b.inProgress)).symm
  have h1 : List.Perm (list_backups (cleanup_backups false plan st).1 g)
      ((groupEntries (cleanup_backups false plan st).1 g).filter
        (fun b => !b.inProgress)) :=
    (List.perm_insertionSort bentLE _).filter _
  have h2 : (groupEntries (cleanup_backups false plan st).1 g).filter
        (fun b => !b.inProgress)
      = ((groupEntries st g).filter (fun b => !b.inProgress)).diff (S.take k) := by
    rw [hge]
    exact filter_diff_of_pred _ hq _
  have h3 : List.Perm
      (((groupEntries st g).filter (fun b => !b.inProgress)).diff (S.take k))
      (S.diff (S.take k)) := List.Perm.diff_right _ hXq
  have h4 : S.diff (S.take k) = S.drop k := by
    nth_rewrite 1 [← List.take_append_drop k S]
    exact append_diff_self_left _ _
  rw [h2] at h1
  have hperm := h1.trans h3
  rw [h4] at hperm
  have hs₂ := sorted_list_backups (cleanup_backups false plan st).1 g
  have hs₁ : (S.drop k).Sorted bentLE :=
    (sorted_list_backups st g).sublist (List.drop_sublist _ _)
  have hnd₁ : ((S.drop k).map (·.dt)).Nodup :=
    hnd.sublist ((List.drop_sublist _ _).map _)
  exact (eq_of_perm_sorted_nodup_dt hperm.symm hs₁ hs₂ hnd₁).symm

/-- C1 (amended): for each auto tier with keep-count `N` over `M`
sorted finalized backups, the eviction pass selects exactly the `M - N`
oldest (so a no-op when `M ≤ N`) and leaves exactly the `N` most
recent — except that a keep-count of `0` selects *nothing* (Python's
`backups[:-0]` is the empty slice), so a disabled tier is never
emptied; manual tiers are never selected and are left untouched. -/
theorem eviction_keeps_suffix (plan : RetentionPlan) (st : CollState)
    (hnd : ∀ g ∈ RETENTION_GROUPS, ((list_backups st g).map (·.dt)).Nodup) :
    (∀ g ∈ RETENTION_GROUPS, plan.get g ≠ 0 →
      ((list_backups_to_delete plan st).1.filter (fun p => p.1 == g)).map (·.2)
          = (list_backups st g).take ((list_backups st g).length - plan.get g) ∧
        list_backups (cleanup_backups false plan st).1 g
          = (list_backups st g).drop ((list_backups st g).length - plan.get g)) ∧
    (∀ g ∈ RETENTION_GROUPS, plan.get g = 0 →
      ((list_backups_to_delete plan st).1.filter (fun p => p.1 == g)).map (·.2) = [] ∧
        list_backups (cleanup_backups false plan st).1 g = list_backups st g) ∧
    (∀ g ∈ RETENTION_MANUAL,
      ((list_backups_to_delete plan st).1.filter (fun p => p.1 == g)).map (·.2) = [] ∧
        list_backups (cleanup_backups false plan st).1 g = list_backups st g) := by
  refine ⟨?_, ?_, ?_⟩
  · intro g hg hN
    have hproj := delsProj_auto plan st g hg
    rw [pySliceUpToNeg, if_neg hN] at hproj
    exact ⟨hproj, cleanup_kept_group plan st g hg hN (hnd g hg)⟩
  · intro g hg hN
    have hproj := delsProj_auto plan st g hg
    rw [pySliceUpToNeg, if_pos hN] at hproj
    exact ⟨hproj, cleanup_unchanged_group plan st g hproj⟩
  · intro g hg
    have hproj := delsProj_manual plan st g hg
    exact ⟨hproj, cleanup_unchanged_group plan st g hproj⟩

/-- C1 (counterexample): with keep-count 0 on `recent` and one
finalized recent backup, the eviction pass selects nothing and deletes
nothing — the claim says a keep-count of 0 evicts every backup in the
tier.  (`backups[:-keep]` with `keep = 0` is `backups[:0] = []`.) -/
theorem keep_count_zero_deletes_nothing :
    (list_backups_to_delete ⟨0, 1, 1, 1⟩
        ⟨true, ["recent", "daily", "weekly", "monthly", "pre-update", "reverted"],
         [(RETENTION_RECENT, ⟨⟨2024, 1, 2, 3, 4, 5⟩, false⟩)]⟩).1 = [] ∧
    list_backups
        ⟨true, ["recent", "daily", "weekly", "monthly", "pre-update", "reverted"],
         [(RETENTION_RECENT, ⟨⟨2024, 1, 2, 3, 4, 5⟩, false⟩)]⟩ RETENTION_RECENT
      = [⟨⟨2024, 1, 2, 3, 4, 5⟩, false⟩] ∧
    (cleanup_backups false ⟨0, 1, 1, 1⟩
        ⟨true, ["recent", "daily", "weekly", "monthly", "pre-update", "reverted"],
         [(RETENTION_RECENT, ⟨⟨2024, 1, 2, 3, 4, 5⟩, false⟩)]⟩).1.entries
      = [(RETENTION_RECENT, ⟨⟨2024, 1, 2, 3, 4, 5⟩, false⟩)] := by
  decide

/-- Witness for the amended C1 theorem: a collection with three recent
backups and keep-counts `recent=2, daily=1, weekly=0, monthly=1`. -/
theorem eviction_keeps_suffix_witness :
    (∀ g ∈ RETENTION_GROUPS,
      ((list_backups
          ⟨true, ["recent", "daily", "weekly", "monthly", "pre-update", "reverted"],
           [(RETENTION_RECENT, ⟨⟨2024, 1, 1, 0, 0, 0⟩, false⟩),
            (RETENTION_RECENT, ⟨⟨2024, 1, 2, 0, 0, 0⟩, false⟩),
            (RETENTION_RECENT, ⟨⟨2024, 1, 3, 0, 0, 0⟩, false⟩),
            ("pre-update", ⟨⟨2023, 6, 1, 0, 0, 0⟩, false⟩)]⟩ g).map (·.dt)).Nodup) ∧
    (∀ g ∈ RETENTION_GROUPS, RetentionPlan.get ⟨2, 1, 0, 1⟩ g ≠ 0 →
      ((list_backups_to_delete ⟨2, 1, 0, 1⟩
          ⟨true, ["recent", "daily", "weekly", "monthly", "pre-update", "reverted"],
           [(RETENTION_RECENT, ⟨⟨2024, 1, 1, 0, 0, 0⟩, false⟩),
            (RETENTION_RECENT, ⟨⟨2024, 1, 2, 0, 0, 0⟩, false⟩),
            (RETENTION_RECENT, ⟨⟨2024, 1, 3, 0, 0, 0⟩, false⟩),
            ("pre-update", ⟨⟨2023, 6, 1, 0, 0, 0⟩, false⟩)]⟩).1.filter
          (fun p => p.1 == g)).map (·.2)
          = (list_backups
              ⟨true, ["recent", "daily", "weekly", "monthly", "pre-update", "reverted"],
               [(RETENTION_RECENT, ⟨⟨2024, 1, 1, 0, 0, 0⟩, false⟩),
                (RETENTION_RECENT, ⟨⟨2024, 1, 2, 0, 0, 0⟩, false⟩),
                (RETENTION_RECENT, ⟨⟨2024, 1, 3, 0, 0, 0⟩, false⟩),
                ("pre-update", ⟨⟨2023, 6, 1, 0, 0, 0⟩, false⟩)]⟩ g).take
              ((list_backups
                ⟨true, ["recent", "daily", "weekly", "monthly", "pre-update", "reverted"],
                 [(RETENTION_RECENT, ⟨⟨2024, 1, 1, 0, 0, 0⟩, false⟩),
                  (RETENTION_RECENT, ⟨⟨2024, 1, 2, 0, 0, 0⟩, false⟩),
                  (RETENTION_RECENT, ⟨⟨2024, 1, 3, 0, 0, 0⟩, false⟩),
                  ("pre-update", ⟨⟨2023, 6, 1, 0, 0, 0⟩, false⟩)]⟩ g).length
                - RetentionPlan.get ⟨2, 1, 0, 1⟩ g) ∧
        list_backups (cleanup_backups false ⟨2, 1, 0, 1⟩
            ⟨true, ["recent", "daily", "weekly", "monthly", "pre-update", "reverted"],
             [(RETENTION_RECENT, ⟨⟨2024, 1, 1, 0, 0, 0⟩, false⟩),
              (RETENTION_RECENT, ⟨⟨2024, 1, 2, 0, 0, 0⟩, false⟩),
              (RETENTION_RECENT, ⟨⟨2024, 1, 3, 0, 0, 0⟩, false⟩),
              ("pre-update", ⟨⟨2023, 6, 1, 0, 0, 0⟩, false⟩)]⟩).1 g
          = (list_backups
              ⟨true, ["recent", "daily", "weekly", "monthly", "pre-update", "reverted"],
               [(RETENTION_RECENT, ⟨⟨2024, 1, 1, 0, 0, 0⟩, false⟩),
                (RETENTION_RECENT, ⟨⟨2024, 1, 2, 0, 0, 0⟩, false⟩),
                (RETENTION_RECENT, ⟨⟨2024, 1, 3, 0, 0, 0⟩, false⟩),
                ("pre-update", ⟨⟨2023, 6, 1, 0, 0, 0⟩, false⟩)]⟩ g).drop
              ((list_backups
                ⟨true, ["recent", "daily", "weekly", "monthly", "pre-update", "reverted"],
                 [(RETENTION_RECENT, ⟨⟨2024, 1, 1, 0, 0, 0⟩, false⟩),
                  (RETENTION_RECENT, ⟨⟨2024, 1, 2, 0, 0, 0⟩, false⟩),
                  (RETENTION_RECENT, ⟨⟨2024, 1, 3, 0, 0, 0⟩, false⟩),
                  ("pre-update", ⟨⟨2023, 6, 1, 0, 0, 0⟩, false⟩)]⟩ g).length
                - RetentionPlan.get ⟨2, 1, 0, 1⟩ g)) := by
  constructor
  · decide
  · exact (eviction_keeps_suffix ⟨2, 1, 0, 1⟩ _ (by decide)).1

/-! ## C6: promotion candidate selection for the daily tier -/

/-- The scan `for backup in backups: if backup.datetime.hour < 13:
selected_backup = backup` keeps the *last* backup with hour `< 13`, or
the initial selection when none qualifies. -/
theorem foldl_pick_last (l : List BEntry) (b0 : BEntry) :
    l.foldl (fun sel b => if b.dt.hour < 13 then b else sel) b0
      = ((l.filter (fun b => decide (b.dt.hour < 13))).getLast?).getD b0 := by
  induction l using List.reverseRecOn with
  | nil => rfl
  | append_singleton l a ih =>
    rw [List.foldl_append, List.foldl_cons, List.foldl_nil, List.filter_append]
    by_cases ha : a.dt.hour < 13
    · simp [ha, List.getLast?_concat]
    · simp [ha, ih]

/-- The last element of a sorted list is an upper bound of its
members. -/
theorem sorted_rel_getLast :
    ∀ {l : List BEntry} (hs : l.Sorted bentLE) (hne : l ≠ []) {c : BEntry},
      c ∈ l → bentLE c (l.getLast hne) := by
  intro l
  induction l with
  | nil => intro _ hne; exact absurd rfl hne
  | cons a t ih =>
    intro hs hne c hc
    cases t with
    | nil =>
      rcases List.mem_cons.mp hc with rfl | h
      · exact le_refl _
      · cases h
    | cons a' t' =>
      rw [List.getLast_cons (by simp)]
      rcases List.mem_cons.mp hc with rfl | h
      · exact List.rel_of_sorted_cons hs _ (List.getLast_mem _)
      · exact ih hs.of_cons (by simp) h

/-- C6: promoting to `daily` from the candidates of the reference
date: when no candidate exists the selection is `None`; otherwise the
selected backup is a candidate of that date, it is the one with the
latest timestamp among candidates with hour `< 13` when any such
candidate exists, and it falls back to the earliest candidate when no
candidate is before 13:00. -/
theorem select_promotion_daily_spec (st : CollState) (fromG : String) (date : PyDate) :
    ((list_backups st fromG).filter (fun b => b.dt.date == date) = [] →
      select_promotion_backup st fromG (some RETENTION_DAILY) date = .ok none) ∧
    (∀ b0 bs', (list_backups st fromG).filter (fun b => b.dt.date == date) = b0 :: bs' →
      ∃ b, select_promotion_backup st fromG (some RETENTION_DAILY) date = .ok (some b) ∧
        b ∈ b0 :: bs' ∧ b.dt.date = date ∧
        (∀ c ∈ b0 :: bs', bentLE b0 c) ∧
        (∀ c ∈ b0 :: bs', c.dt.hour < 13 → b.dt.hour < 13 ∧ bentLE c b) ∧
        ((∀ c ∈ b0 :: bs', ¬ c.dt.hour < 13) → b = b0)) := by
  have hsorted : ((list_backups st fromG).filter
      (fun b => b.dt.date == date)).Sorted bentLE :=
    (sorted_list_backups st fromG).filter _
  constructor
  · intro hbs
    simp [select_promotion_backup, RETENTION_DAILY, hbs]
  · intro b0 bs' hbs
    rw [hbs] at hsorted
    have hdates : ∀ c ∈ b0 :: bs', c.dt.date = date := by
      intro c hc
      have : c ∈ (list_backups st fromG).filter (fun b => b.dt.date == date) := by
        rw [hbs]; exact hc
      simpa using (List.mem_filter.mp this).2
    have hsel : select_promotion_backup st fromG (some RETENTION_DAILY) date
        = .ok (some ((b0 :: bs').foldl
            (fun sel b => if b.dt.hour < 13 then b else sel) b0)) := by
      simp [select_promotion_backup, RETENTION_DAILY, hbs]
    rw [foldl_pick_last] at hsel
    cases hf : (b0 :: bs').filter (fun b => decide (b.dt.hour < 13)) with
    | nil =>
      rw [hf] at hsel
      refine ⟨b0, by simpa using hsel, List.mem_cons_self b0 bs', hdates b0 (List.mem_cons_self b0 bs'),
        fun c hc => ?_, fun c hc hc13 => ?_, fun _ => rfl⟩
      · rcases List.mem_cons.mp hc with rfl | h
        · exact le_refl _
        · exact List.rel_of_sorted_cons hsorted c h
      · exfalso
        have : c ∈ (b0 :: bs').filter (fun b => decide (b.dt.hour < 13)) :=
          List.mem_filter.mpr ⟨hc, by simpa using hc13⟩
        rw [hf] at this
        cases this
    | cons m t =>
      have hfne : (b0 :: bs').filter (fun b => decide (b.dt.hour < 13)) ≠ [] := by
        rw [hf]; simp
      have hbigb_mem13 : (m :: t).getLast (by simp)
          ∈ (b0 :: bs').filter (fun b => decide (b.dt.hour < 13)) := by
        rw [hf]; exact List.getLast_mem _
      set bigb := (m :: t).getLast (by simp) with hbigb
      have he1 := List.getLast?_eq_getLast _ hfne
      have he2 : ((b0 :: bs').filter (fun b => decide (b.dt.hour < 13))).getLast?
          = some bigb := by
        rw [hf]; exact List.getLast?_eq_getLast _ (by simp)
      have hfl : ((b0 :: bs').filter (fun b => decide (b.dt.hour < 13))).getLast hfne
          = bigb := Option.some.inj (he1.symm.trans he2)
      rw [he2] at hsel
      have hbmem : bigb ∈ b0 :: bs' := (List.mem_filter.mp hbigb_mem13).1
      have hb13 : bigb.dt.hour < 13 := by
        have := (List.mem_filter.mp hbigb_mem13).2
        simpa using this
      refine ⟨bigb, hsel, hbmem, hdates bigb hbmem, fun c hc => ?_, fun c hc hc13 => ?_,
        fun hnone => ?_⟩
      · rcases List.mem_cons.mp hc with rfl | h
        · exact le_refl _
        · exact List.rel_of_sorted_cons hsorted c h
      · refine ⟨hb13, ?_⟩
        have hcmem : c ∈ (b0 :: bs').filter (fun b => decide (b.dt.hour < 13)) :=
          List.mem_filter.mpr ⟨hc, by simpa using hc13⟩
        have := sorted_rel_getLast (hsorted.filter _) hfne hcmem
        rw [hfl] at this
        exact this
      · exact absurd hb13 (hnone bigb hbmem)

/-- Witness: candidates at 09:00, 12:30 and 14:00 on the reference
date select the 12:30 one (latest before 13:00); a sole 14:00
candidate selects itself (fallback to the earliest). -/
theorem select_promotion_daily_spec_witness :
    select_promotion_backup
        ⟨true, ["recent"],
         [(RETENTION_RECENT, ⟨⟨2024, 7, 10, 9, 0, 0⟩, false⟩),
          (RETENTION_RECENT, ⟨⟨2024, 7, 10, 12, 30, 0⟩, false⟩),
          (RETENTION_RECENT, ⟨⟨2024, 7, 10, 14, 0, 0⟩, false⟩)]⟩
        RETENTION_RECENT (some RETENTION_DAILY) ⟨2024, 7, 10⟩
      = .ok (some ⟨⟨2024, 7, 10, 12, 30, 0⟩, false⟩) ∧
    select_promotion_backup
        ⟨true, ["recent"], [(RETENTION_RECENT, ⟨⟨2024, 7, 10, 14, 0, 0⟩, false⟩)]⟩
        RETENTION_RECENT (some RETENTION_DAILY) ⟨2024, 7, 10⟩
      = .ok (some ⟨⟨2024, 7, 10, 14, 0, 0⟩, false⟩) ∧
    (∃ b, select_promotion_backup
        ⟨true, ["recent"],
         [(RETENTION_RECENT, ⟨⟨2024, 7, 10, 9, 0, 0⟩, false⟩),
          (RETENTION_RECENT, ⟨⟨2024, 7, 10, 12, 30, 0⟩, false⟩),
          (RETENTION_RECENT, ⟨⟨2024, 7, 10, 14, 0, 0⟩, false⟩)]⟩
        RETENTION_RECENT (some RETENTION_DAILY) ⟨2024, 7, 10⟩ = .ok (some b) ∧
      b ∈ (⟨⟨2024, 7, 10, 9, 0, 0⟩, false⟩ : BEntry) ::
        [⟨⟨2024, 7, 10, 12, 30, 0⟩, false⟩, ⟨⟨2024, 7, 10, 14, 0, 0⟩, false⟩] ∧
      b.dt.date = ⟨2024, 7, 10⟩ ∧
      (∀ c ∈ (⟨⟨2024, 7, 10, 9, 0, 0⟩, false⟩ : BEntry) ::
        [⟨⟨2024, 7, 10, 12, 30, 0⟩, false⟩, ⟨⟨2024, 7, 10, 14, 0, 0⟩, false⟩],
        bentLE ⟨⟨2024, 7, 10, 9, 0, 0⟩, false⟩ c) ∧
      (∀ c ∈ (⟨⟨2024, 7, 10, 9, 0, 0⟩, false⟩ : BEntry) ::
        [⟨⟨2024, 7, 10, 12, 30, 0⟩, false⟩, ⟨⟨2024, 7, 10, 14, 0, 0⟩, false⟩],
        c.dt.hour < 13 → b.dt.hour < 13 ∧ bentLE c b) ∧
      ((∀ c ∈ (⟨⟨2024, 7, 10, 9, 0, 0⟩, false⟩ : BEntry) ::
        [⟨⟨2024, 7, 10, 12, 30, 0⟩, false⟩, ⟨⟨2024, 7, 10, 14, 0, 0⟩, false⟩],
        ¬ c.dt.hour < 13) → b = ⟨⟨2024, 7, 10, 9, 0, 0⟩, false⟩)) :=
  ⟨by decide, by decide,
   (select_promotion_daily_spec
      ⟨true, ["recent"],
       [(RETENTION_RECENT, ⟨⟨2024, 7, 10, 9, 0, 0⟩, false⟩),
        (RETENTION_RECENT, ⟨⟨2024, 7, 10, 12, 30, 0⟩, false⟩),
        (RETENTION_RECENT, ⟨⟨2024, 7, 10, 14, 0, 0⟩, false⟩)]⟩
      RETENTION_RECENT ⟨2024, 7, 10⟩).2
     ⟨⟨2024, 7, 10, 9, 0, 0⟩, false⟩
     [⟨⟨2024, 7, 10, 12, 30, 0⟩, false⟩, ⟨⟨2024, 7, 10, 14, 0, 0⟩, false⟩]
     (by decide)⟩

/-! ## C9: promotion is idempotent per period (daily tier) -/

/-- The number of finalized backups with timestamp date `d` recorded in
the `daily` retain group. -/
def dailyCount (st : CollState) (d : PyDate) : Nat :=
  ((groupEntries st RETENTION_DAILY).filter
    (fun b => (b.dt.date == d) && !b.inProgress)).length

theorem dailyCount_congr {st st' : CollState} (d : PyDate)
    (h : st.entries = st'.entries) : dailyCount st d = dailyCount st' d := by
  simp [dailyCount, groupEntries, h]

/-- `dailyCount` equals the length of the period listing the rotation
engine consults (`get_backups_for_date` on the `daily` group). -/
theorem dailyCount_eq_filter_length (st : CollState) (d : PyDate) :
    dailyCount st d
      = ((list_backups st RETENTION_DAILY).filter (fun b => b.dt.date == d)).length := by
  unfold dailyCount list_backups list_all_backups
  have hperm := ((List.perm_insertionSort bentLE
    (groupEntries st RETENTION_DAILY)).filter (fun b => !b.inProgress)).filter
    (fun b => b.dt.date == d)
  rw [hperm.length_eq, List.filter_filter]

theorem dailyCount_cons (st : CollState) (g' : String) (b : BEntry) (d : PyDate) :
    dailyCount { st with entries := (g', b) :: st.entries } d
      ≤ dailyCount st d + 1 ∧
    dailyCount st d ≤ dailyCount { st with entries := (g', b) :: st.entries } d := by
  unfold dailyCount groupEntries
  by_cases hg : g' = RETENTION_DAILY <;>
    simp [List.filter_cons, hg] <;> split <;> simp [Nat.le_succ]

theorem get_retain_group_fs_entries (st : CollState) (g : String) :
    (get_retain_group_fs st g).st.entries = st.entries := by
  unfold get_retain_group_fs
  split
  · exact ensureGroupDir_entries st g
  · rfl

theorem get_next_retain_group_fs_entries (plan : RetentionPlan) (st : CollState)
    (g : String) : (get_next_retain_group_fs plan st g).2.1.entries = st.entries := by
  unfold get_next_retain_group_fs
  split
  · exact ensureGroupDir_entries st _
  · rfl

theorem should_promote_backup_entries (plan : RetentionPlan) (st : CollState)
    (fromG : String) (date : PyDate) (now : DT) :
    (should_promote_backup plan st fromG date now).st.entries = st.entries := by
  unfold should_promote_backup
  have h := get_next_retain_group_fs_entries plan st fromG
  rcases hg : get_next_retain_group_fs plan st fromG with ⟨toG, st1, ev1⟩
  rw [hg] at h
  dsimp only at h
  try simp only [hg]
  try dsimp only
  split
  · exact h
  · cases toG with
    | none => exact h
    | some t => cases hb : get_backups_for_date st1 t date <;> simp only [hb] <;> exact h

/-- When `should_promote_backup` answers `True` and the promotion
target is the `daily` tier, the daily group holds no backup for the
reference date. -/
theorem should_promote_true_daily_empty (plan : RetentionPlan) (st : CollState)
    (fromG : String) (date : PyDate) (now : DT) (st' : CollState) (ev : List FsEvent)
    (h : should_promote_backup plan st fromG date now = ⟨.ok true, st', ev⟩)
    (ht : get_next_retain_group plan fromG = some RETENTION_DAILY) :
    dailyCount st' date = 0 := by
  unfold should_promote_backup get_next_retain_group_fs at h
  rw [ht] at h
  dsimp only at h
  split at h
  · cases h
  · rw [get_backups_for_date] at h
    simp only [RETENTION_DAILY, if_pos (Or.inl rfl), true_or, if_true] at h
    have hout := congrArg Res.out h
    have hst := congrArg Res.st h
    dsimp only at hout hst
    have : (decide (((list_backups (ensureGroupDir st RETENTION_DAILY).1
        RETENTION_DAILY).filter (fun b => b.dt.date == date)).length < 1)
        && decide (0 < plan.get RETENTION_DAILY)) = true := by
      exact Except.ok.inj hout
    have hlen : ((list_backups (ensureGroupDir st RETENTION_DAILY).1
        RETENTION_DAILY).filter (fun b => b.dt.date == date)).length = 0 := by
      have := (Bool.and_eq_true _ _ |>.mp this).1
      simpa using this
    rw [← hst]
    rw [dailyCount_eq_filter_length]
    exact hlen

theorem promote_backup_entries (st : CollState) (b : BEntry) (toG : String)
    (o : Except PyError Unit) (st' : CollState) (ev : List FsEvent)
    (h : promote_backup_to_retain_group false st b toG = ⟨o, st', ev⟩) :
    st'.entries = st.entries ∨ st'.entries = (toG, b) :: st.entries := by
  unfold promote_backup_to_retain_group at h
  simp only [Bool.false_eq_true, if_false] at h
  split at h
  · exact Or.inl (congrArg CollState.entries (congrArg Res.st h).symm)
  · have := congrArg Res.st h
    dsimp only at this
    rw [← this]
    exact Or.inr rfl

theorem dailyCount_cons_ne (st : CollState) (g' : String) (b : BEntry) (d : PyDate)
    (hg : ¬ g' = RETENTION_DAILY) :
    dailyCount { st with entries := (g', b) :: st.entries } d = dailyCount st d := by
  unfold dailyCount groupEntries
  simp [List.filter_cons, hg]

theorem get_next_retain_group_fs_fst (plan : RetentionPlan) (st : CollState)
    (g : String) :
    (get_next_retain_group_fs plan st g).1 = get_next_retain_group plan g := by
  unfold get_next_retain_group_fs
  cases get_next_retain_group plan g <;> rfl

/-- One `promote_backups` iteration never removes a daily backup of the
current date and adds one only when the daily group held none. -/
theorem promote_step_dailyCount (plan : RetentionPlan) (now : DT) (g : String)
    (st : CollState) :
    dailyCount st now.date ≤ dailyCount (promote_step false plan now g st).st now.date ∧
    dailyCount (promote_step false plan now g st).st now.date
      ≤ max (dailyCount st now.date) 1 := by
  unfold promote_step
  have h1ent := get_retain_group_fs_entries st g
  rcases h1e : get_retain_group_fs st g with ⟨o1, st1, ev1⟩
  rw [h1e] at h1ent
  dsimp only at h1ent
  try simp only [h1e]
  try dsimp only
  have hc1 : dailyCount st1 now.date = dailyCount st now.date := dailyCount_congr _ h1ent
  cases o1 with
  | error e => exact ⟨le_of_eq hc1.symm, le_trans (le_of_eq hc1) (le_max_left _ _)⟩
  | ok u =>
    have h2ent := should_promote_backup_entries plan st1 g now.date now
    rcases h2e : should_promote_backup plan st1 g now.date now with ⟨o2, st2, ev2⟩
    rw [h2e] at h2ent
    dsimp only at h2ent
    try simp only [h2e]
    have hc2 : dailyCount st2 now.date = dailyCount st now.date := by
      rw [dailyCount_congr _ h2ent, hc1]
    cases o2 with
    | error e => exact ⟨le_of_eq hc2.symm, le_trans (le_of_eq hc2) (le_max_left _ _)⟩
    | ok sp =>
      cases sp with
      | false => exact ⟨le_of_eq hc2.symm, le_trans (le_of_eq hc2) (le_max_left _ _)⟩
      | true =>
        have h3ent := get_next_retain_group_fs_entries plan st2 g
        have h3fst := get_next_retain_group_fs_fst plan st2 g
        rcases h3e : get_next_retain_group_fs plan st2 g with ⟨toG, st3, ev3⟩
        rw [h3e] at h3ent h3fst
        dsimp only at h3ent h3fst
        try simp only [h3e]
        try dsimp only
        have hc3 : dailyCount st3 now.date = dailyCount st now.date := by
          rw [dailyCount_congr _ h3ent, hc2]
        cases toG with
        | none => exact ⟨le_of_eq hc3.symm, le_trans (le_of_eq hc3) (le_max_left _ _)⟩
        | some t =>
          cases h4e : select_promotion_backup st3 g (some t) now.date with
          | error e =>
            simp only [h4e]
            exact ⟨le_of_eq hc3.symm, le_trans (le_of_eq hc3) (le_max_left _ _)⟩
          | ok b? =>
            simp only [h4e]
            cases b? with
            | none => exact ⟨le_of_eq hc3.symm, le_trans (le_of_eq hc3) (le_max_left _ _)⟩
            | some b =>
              rcases h5e : promote_backup_to_retain_group false st3 b t with ⟨o5, st4, ev4⟩
              have hadd := promote_backup_entries st3 b t o5 st4 ev4 h5e
              try simp only [h5e]
              have hgoal : dailyCount st now.date ≤ dailyCount st4 now.date ∧
                  dailyCount st4 now.date ≤ max (dailyCount st now.date) 1 := by
                rcases hadd with hsame | hcons
                · have : dailyCount st4 now.date = dailyCount st now.date := by
                    rw [dailyCount_congr _ hsame, hc3]
                  exact ⟨le_of_eq this.symm, le_trans (le_of_eq this) (le_max_left _ _)⟩
                · have hco : dailyCount st4 now.date
                      = dailyCount { st3 with entries := (t, b) :: st3.entries } now.date :=
                    dailyCount_congr _ (by rw [hcons])
                  by_cases ht : t = RETENTION_DAILY
                  · subst ht
                    have htpure : get_next_retain_group plan g = some RETENTION_DAILY :=
                      h3fst.symm
                    have h0 : dailyCount st2 now.date = 0 :=
                      should_promote_true_daily_empty plan st1 g now.date now st2 ev2 h2e
                        htpure
                    have hc0 : dailyCount st now.date = 0 := by rw [← hc2, h0]
                    have hb := dailyCount_cons st3 RETENTION_DAILY b now.date
                    rw [hco]
                    omega
                  · have hb := dailyCount_cons_ne st3 t b now.date ht
                    rw [hco, hb, hc3]
                    exact ⟨le_refl _, le_max_left _ _⟩
              cases o5 <;> exact hgoal

theorem promote_loop_dailyCount (plan : RetentionPlan) (now : DT) (gs : List String) :
    ∀ st : CollState,
      dailyCount st now.date
          ≤ dailyCount ((promote_loop false plan now gs st).st) now.date ∧
        dailyCount ((promote_loop false plan now gs st).st) now.date
          ≤ max (dailyCount st now.date) 1 := by
  induction gs with
  | nil => intro st; exact ⟨le_refl _, le_max_left _ _⟩
  | cons g gs ih =>
    intro st
    unfold promote_loop
    have hstep := promote_step_dailyCount plan now g st
    rcases hse : promote_step false plan now g st with ⟨o1, st1, ev1⟩
    rw [hse] at hstep
    dsimp only at hstep
    try simp only [hse]
    cases o1 with
    | error e => exact hstep
    | ok u =>
      have hrest := ih st1
      rcases hre : promote_loop false plan now gs st1 with ⟨o2, st2, ev2⟩
      rw [hre] at hrest
      dsimp only at hrest
      try simp only [hre]
      omega

/-- C9: running `promote_backups` twice within the same UTC day never
creates two `daily` backups for the same calendar date: the daily
count for that date after both runs is at most `max` of its initial
value and `1`; and whenever the daily group already records a backup
for the date (and `daily` is the promotion target of `recent`), the
second run's `should_promote_backup` answers `False`. -/
theorem promote_backups_idempotent (plan : RetentionPlan) (st : CollState)
    (now now' : DT) (hd : now'.date = now.date) :
    dailyCount ((promote_backups false plan now'
        ((promote_backups false plan now st).st)).st) now.date
      ≤ max (dailyCount st now.date) 1 ∧
    (∀ st₁ : CollState,
      get_next_retain_group plan RETENTION_RECENT = some RETENTION_DAILY →
      0 < dailyCount st₁ now.date →
      (should_promote_backup plan st₁ RETENTION_RECENT now.date now').out = .ok false) := by
  constructor
  · have h1 := promote_loop_dailyCount plan now RETENTION_GROUPS st
    have h2 := promote_loop_dailyCount plan now' RETENTION_GROUPS
      (promote_loop false plan now RETENTION_GROUPS st).st
    rw [hd] at h2
    unfold promote_backups
    omega
  · intro st₁ hnext hpos
    unfold should_promote_backup get_next_retain_group_fs
    rw [hnext]
    dsimp only
    split
    · rfl
    · rw [get_backups_for_date]
      rw [if_pos (show RETENTION_DAILY = RETENTION_DAILY ∨ RETENTION_DAILY = RETENTION_RECENT
        from Or.inl rfl)]
      have hlen : ((list_backups (ensureGroupDir st₁ RETENTION_DAILY).1
          RETENTION_DAILY).filter (fun b => b.dt.date == now.date)).length
          = dailyCount st₁ now.date := by
        rw [← dailyCount_eq_filter_length]
        exact dailyCount_congr _ (ensureGroupDir_entries st₁ RETENTION_DAILY)
      have hdec : decide (((list_backups (ensureGroupDir st₁ RETENTION_DAILY).1
          RETENTION_DAILY).filter (fun b => b.dt.date == now.date)).length < 1) = false := by
        rw [decide_eq_false_iff_not]
        omega
      try dsimp only
      rw [hdec]
      simp

/-- Witness: a collection whose daily group is empty, promoted twice
on 2024-07-10 (at 14:00 and 15:00 UTC). -/
theorem promote_backups_idempotent_witness :
    (⟨2024, 7, 10, 15, 0, 0⟩ : DT).date = (⟨2024, 7, 10, 14, 0, 0⟩ : DT).date ∧
    (dailyCount ((promote_backups false ⟨6, 7, 4, 12⟩ ⟨2024, 7, 10, 15, 0, 0⟩
        ((promote_backups false ⟨6, 7, 4, 12⟩ ⟨2024, 7, 10, 14, 0, 0⟩
          ⟨true, ["recent", "daily", "weekly", "monthly", "pre-update", "reverted"],
           [(RETENTION_RECENT, ⟨⟨2024, 7, 10, 9, 30, 0⟩, false⟩)]⟩).st)).st)
        (⟨2024, 7, 10, 14, 0, 0⟩ : DT).date
      ≤ max (dailyCount
          ⟨true, ["recent", "daily", "weekly", "monthly", "pre-update", "reverted"],
           [(RETENTION_RECENT, ⟨⟨2024, 7, 10, 9, 30, 0⟩, false⟩)]⟩
          (⟨2024, 7, 10, 14, 0, 0⟩ : DT).date) 1 ∧
    (∀ st₁ : CollState,
      get_next_retain_group ⟨6, 7, 4, 12⟩ RETENTION_RECENT = some RETENTION_DAILY →
      0 < dailyCount st₁ (⟨2024, 7, 10, 14, 0, 0⟩ : DT).date →
      (should_promote_backup ⟨6, 7, 4, 12⟩ st₁ RETENTION_RECENT
        (⟨2024, 7, 10, 14, 0, 0⟩ : DT).date ⟨2024, 7, 10, 15, 0, 0⟩).out = .ok false)) :=
  ⟨rfl, promote_backups_idempotent ⟨6, 7, 4, 12⟩
    ⟨true, ["recent", "daily", "weekly", "monthly", "pre-update", "reverted"],
     [(RETENTION_RECENT, ⟨⟨2024, 7, 10, 9, 30, 0⟩, false⟩)]⟩
    ⟨2024, 7, 10, 14, 0, 0⟩ ⟨2024, 7, 10, 15, 0, 0⟩ rfl⟩

/-! ## C10: weekly/monthly period membership ignores the year -/

/-- C10: `get_backups_for_date` for the `weekly` tier compares only the
ISO week number of a backup's timestamp with the reference date's (and
for `monthly` only the month number) — the year is not compared.
Consequently a backup from the same-numbered ISO week (resp. month) of
*any* year, in the target tier, blocks promotion for the period, and
such a backup in the source tier qualifies as a promotion candidate. -/
theorem period_membership_ignores_year (st : CollState) (d : PyDate) :
    (get_backups_for_date st RETENTION_WEEKLY d
        = .ok ((list_backups st RETENTION_WEEKLY).filter
            (fun b => b.dt.isoWeek == d.isoWeek)) ∧
      get_backups_for_date st RETENTION_MONTHLY d
        = .ok ((list_backups st RETENTION_MONTHLY).filter
            (fun b => b.dt.month == d.month))) ∧
    (∀ (plan : RetentionPlan) (now : DT) (b : BEntry),
      b ∈ list_backups st RETENTION_WEEKLY → b.dt.isoWeek = d.isoWeek →
      get_next_retain_group plan RETENTION_DAILY = some RETENTION_WEEKLY →
      (should_promote_backup plan st RETENTION_DAILY d now).out = .ok false) ∧
    (∀ (fromG : String) (b : BEntry),
      b ∈ list_backups st fromG → b.dt.isoWeek = d.isoWeek →
      ∃ c, select_promotion_backup st fromG (some RETENTION_WEEKLY) d = .ok (some c) ∧
        c.dt.isoWeek = d.isoWeek) ∧
    (∀ (plan : RetentionPlan) (now : DT) (b : BEntry),
      b ∈ list_backups st RETENTION_MONTHLY → b.dt.month = d.month →
      get_next_retain_group plan RETENTION_WEEKLY = some RETENTION_MONTHLY →
      (should_promote_backup plan st RETENTION_WEEKLY d now).out = .ok false) ∧
    (∀ (fromG : String) (b : BEntry),
      b ∈ list_backups st fromG → b.dt.month = d.month →
      ∃ c, select_promotion_backup st fromG (some RETENTION_MONTHLY) d = .ok (some c) ∧
        c.dt.month = d.month) := by
  refine ⟨⟨by simp [get_backups_for_date, RETENTION_WEEKLY, RETENTION_DAILY,
      RETENTION_RECENT, RETENTION_MONTHLY],
    by simp [get_backups_for_date, RETENTION_WEEKLY, RETENTION_DAILY,
      RETENTION_RECENT, RETENTION_MONTHLY]⟩, ?_, ?_, ?_, ?_⟩
  · intro plan now b hb hweek hnext
    unfold should_promote_backup get_next_retain_group_fs
    rw [hnext]
    dsimp only
    split
    · rfl
    · rw [get_backups_for_date]
      rw [if_neg (by simp [RETENTION_WEEKLY, RETENTION_DAILY, RETENTION_RECENT]),
        if_pos rfl]
      have hbmem : b ∈ (list_backups (ensureGroupDir st RETENTION_WEEKLY).1
          RETENTION_WEEKLY).filter (fun b => b.dt.isoWeek == d.isoWeek) := by
        rw [list_backups_ensureGroupDir]
        exact List.mem_filter.mpr ⟨hb, by simpa using hweek⟩
      have hne : ((list_backups (ensureGroupDir st RETENTION_WEEKLY).1
          RETENTION_WEEKLY).filter (fun b => b.dt.isoWeek == d.isoWeek)).length ≥ 1 := by
        cases hq : (list_backups (ensureGroupDir st RETENTION_WEEKLY).1
            RETENTION_WEEKLY).filter (fun b => b.dt.isoWeek == d.isoWeek) with
        | nil => rw [hq] at hbmem; cases hbmem
        | cons x xs => simp [hq]
      have hdec : decide (((list_backups (ensureGroupDir st RETENTION_WEEKLY).1
          RETENTION_WEEKLY).filter (fun b => b.dt.isoWeek == d.isoWeek)).length < 1)
          = false := by
        rw [decide_eq_false_iff_not]
        omega
      try dsimp only
      rw [hdec]
      simp
  · intro fromG b hb hweek
    rw [select_promotion_backup]
    rw [if_neg (by simp [RETENTION_WEEKLY, RETENTION_DAILY]), if_pos rfl]
    have hbmem : b ∈ (list_backups st fromG).filter
        (fun b => b.dt.isoWeek == d.isoWeek) :=
      List.mem_filter.mpr ⟨hb, by simpa using hweek⟩
    cases hq : (list_backups st fromG).filter (fun b => b.dt.isoWeek == d.isoWeek) with
    | nil => rw [hq] at hbmem; cases hbmem
    | cons c t =>
      refine ⟨c, rfl, ?_⟩
      have hcmem : c ∈ (list_backups st fromG).filter
          (fun b => b.dt.isoWeek == d.isoWeek) := by
        rw [hq]; exact List.mem_cons_self c t
      simpa using (List.mem_filter.mp hcmem).2
  · intro plan now b hb hmonth hnext
    unfold should_promote_backup get_next_retain_group_fs
    rw [hnext]
    dsimp only
    split
    · rfl
    · rw [get_backups_for_date]
      rw [if_neg (by simp [RETENTION_MONTHLY, RETENTION_DAILY, RETENTION_RECENT]),
        if_neg (by simp [RETENTION_MONTHLY, RETENTION_WEEKLY]), if_pos rfl]
      have hbmem : b ∈ (list_backups (ensureGroupDir st RETENTION_MONTHLY).1
          RETENTION_MONTHLY).filter (fun b => b.dt.month == d.month) := by
        rw [list_backups_ensureGroupDir]
        exact List.mem_filter.mpr ⟨hb, by simpa using hmonth⟩
      have hne : ((list_backups (ensureGroupDir st RETENTION_MONTHLY).1
          RETENTION_MONTHLY).filter (fun b => b.dt.month == d.month)).length ≥ 1 := by
        cases hq : (list_backups (ensureGroupDir st RETENTION_MONTHLY).1
            RETENTION_MONTHLY).filter (fun b => b.dt.month == d.month) with
        | nil => rw [hq] at hbmem; cases hbmem
        | cons x xs => simp [hq]
      have hdec : decide (((list_backups (ensureGroupDir st RETENTION_MONTHLY).1
          RETENTION_MONTHLY).filter (fun b => b.dt.month == d.month)).length < 1)
          = false := by
        rw [decide_eq_false_iff_not]
        omega
      try dsimp only
      rw [hdec]
      simp
  · intro fromG b hb hmonth
    rw [select_promotion_backup]
    rw [if_neg (by simp [RETENTION_MONTHLY, RETENTION_DAILY]),
      if_neg (by simp [RETENTION_MONTHLY, RETENTION_WEEKLY]), if_pos rfl]
    have hbmem : b ∈ (list_backups st fromG).filter
        (fun b => b.dt.month == d.month) :=
      List.mem_filter.mpr ⟨hb, by simpa using hmonth⟩
    cases hq : (list_backups st fromG).filter (fun b => b.dt.month == d.month) with
    | nil => rw [hq] at hbmem; cases hbmem
    | cons c t =>
      refine ⟨c, rfl, ?_⟩
      have hcmem : c ∈ (list_backups st fromG).filter
          (fun b => b.dt.month == d.month) := by
        rw [hq]; exact List.mem_cons_self c t
      simpa using (List.mem_filter.mp hcmem).2

/-- Witness: a weekly backup of 2023-07-12 (ISO week 28 of 2023)
covers ISO week 28 relative to the reference date 2024-07-10 (week 28
of 2024, a *different year*), blocking daily→weekly promotion; a
monthly backup of 2023-07-01 covers July relative to 2024-07-10,
and same-week/month backups of the other year qualify as candidates. -/
theorem period_membership_ignores_year_witness :
    (⟨⟨2023, 7, 12, 4, 0, 0⟩, false⟩ : BEntry).dt.isoWeek
        = (⟨2024, 7, 10⟩ : PyDate).isoWeek ∧
    (⟨⟨2023, 7, 12, 4, 0, 0⟩, false⟩ : BEntry).dt.year ≠ (⟨2024, 7, 10⟩ : PyDate).year ∧
    (⟨⟨2023, 7, 12, 4, 0, 0⟩, false⟩ : BEntry)
        ∈ list_backups
          ⟨true, ["weekly", "monthly"],
           [(RETENTION_WEEKLY, ⟨⟨2023, 7, 12, 4, 0, 0⟩, false⟩),
            (RETENTION_MONTHLY, ⟨⟨2023, 7, 1, 4, 0, 0⟩, false⟩)]⟩ RETENTION_WEEKLY ∧
    (should_promote_backup ⟨6, 7, 4, 12⟩
        ⟨true, ["weekly", "monthly"],
         [(RETENTION_WEEKLY, ⟨⟨2023, 7, 12, 4, 0, 0⟩, false⟩),
          (RETENTION_MONTHLY, ⟨⟨2023, 7, 1, 4, 0, 0⟩, false⟩)]⟩
        RETENTION_DAILY ⟨2024, 7, 10⟩ ⟨2024, 7, 10, 14, 0, 0⟩).out = .ok false ∧
    (∃ c, select_promotion_backup
        ⟨true, ["weekly", "monthly"],
         [(RETENTION_WEEKLY, ⟨⟨2023, 7, 12, 4, 0, 0⟩, false⟩),
          (RETENTION_MONTHLY, ⟨⟨2023, 7, 1, 4, 0, 0⟩, false⟩)]⟩
        RETENTION_WEEKLY (some RETENTION_WEEKLY) ⟨2024, 7, 10⟩ = .ok (some c) ∧
      c.dt.isoWeek = (⟨2024, 7, 10⟩ : PyDate).isoWeek) ∧
    (should_promote_backup ⟨6, 7, 4, 12⟩
        ⟨true, ["weekly", "monthly"],
         [(RETENTION_WEEKLY, ⟨⟨2023, 7, 12, 4, 0, 0⟩, false⟩),
          (RETENTION_MONTHLY, ⟨⟨2023, 7, 1, 4, 0, 0⟩, false⟩)]⟩
        RETENTION_WEEKLY ⟨2024, 7, 10⟩ ⟨2024, 7, 10, 14, 0, 0⟩).out = .ok false :=
  ⟨by decide, by decide, by decide,
   (period_membership_ignores_year
      ⟨true, ["weekly", "monthly"],
       [(RETENTION_WEEKLY, ⟨⟨2023, 7, 12, 4, 0, 0⟩, false⟩),
        (RETENTION_MONTHLY, ⟨⟨2023, 7, 1, 4, 0, 0⟩, false⟩)]⟩ ⟨2024, 7, 10⟩).2.1
     ⟨6, 7, 4, 12⟩ ⟨2024, 7, 10, 14, 0, 0⟩ ⟨⟨2023, 7, 12, 4, 0, 0⟩, false⟩
     (by decide) (by decide) (by decide),
   (period_membership_ignores_year
      ⟨true, ["weekly", "monthly"],
       [(RETENTION_WEEKLY, ⟨⟨2023, 7, 12, 4, 0, 0⟩, false⟩),
        (RETENTION_MONTHLY, ⟨⟨2023, 7, 1, 4, 0, 0⟩, false⟩)]⟩ ⟨2024, 7, 10⟩).2.2.1
     RETENTION_WEEKLY ⟨⟨2023, 7, 12, 4, 0, 0⟩, false⟩ (by decide) (by decide),
   (period_membership_ignores_year
      ⟨true, ["weekly", "monthly"],
       [(RETENTION_WEEKLY, ⟨⟨2023, 7, 12, 4, 0, 0⟩, false⟩),
        (RETENTION_MONTHLY, ⟨⟨2023, 7, 1, 4, 0, 0⟩, false⟩)]⟩ ⟨2024, 7, 10⟩).2.2.2.1
     ⟨6, 7, 4, 12⟩ ⟨2024, 7, 10, 14, 0, 0⟩ ⟨⟨2023, 7, 1, 4, 0, 0⟩, false⟩
     (by decide) (by decide) (by decide)⟩

/-! ## C8: the streaming buffer (`BytesFIFO`, backuproll.py:110-248)

The fixed-capacity circular byte buffer.  The Python object holds a
`BytesIO` of `_size` bytes plus `_filled`, `_read_ptr` and
`_write_ptr`; bytes are `Nat` here.  The internal lock serialises
`read` and `write`, so their effects interleave atomically and the
sequential model below is exact. -/

structure BytesFIFO where
  buffer : List Nat
  size : Nat
  filled : Nat
  read_ptr : Nat
  write_ptr : Nat
deriving DecidableEq, Repr

/-- `BytesFIFO(init_size)` (backuproll.py:114-121). -/
def BytesFIFO.init (n : Nat) : BytesFIFO := ⟨List.replicate n 0, n, 0, 0, 0⟩

/-- `BytesIO.seek(pos)` followed by `write(data)`: overwrite in
place (all uses stay within the allocated buffer). -/
def writeAt (buf : List Nat) (pos : Nat) (data : List Nat) : List Nat :=
  buf.take pos ++ data ++ buf.drop (pos + data.length)

theorem writeAt_length (buf : List Nat) (pos : Nat) (data : List Nat)
    (h : pos + data.length ≤ buf.length) : (writeAt buf pos data).length = buf.length := by
  simp [writeAt]
  omega

/-- `BytesFIFO.read` (backuproll.py:126-156). -/
def BytesFIFO.read (s : BytesFIFO) (reqSize : Int) : List Nat × BytesFIFO :=
  let sz0 : Nat := if reqSize < 0 then s.filled else reqSize.toNat
  let sz := min sz0 s.filled
  let contig := s.size - s.read_ptr
  let contig_read := min contig sz
  let ret := (s.buffer.drop s.read_ptr).take contig_read
  if contig_read < sz then
    let leftover := sz - contig_read
    (ret ++ s.buffer.take leftover,
     { s with filled := s.filled - sz, read_ptr := leftover })
  else
    (ret, { s with filled := s.filled - sz, read_ptr := s.read_ptr + contig_read })

/-- `BytesFIFO.write` (backuproll.py:158-188). -/
def BytesFIFO.write (s : BytesFIFO) (data : List Nat) : Nat × BytesFIFO :=
  let free := s.size - s.filled
  let write_size := min data.length free
  if write_size ≠ 0 then
    let contig := s.size - s.write_ptr
    let contig_write := min contig write_size
    let buf1 := writeAt s.buffer s.write_ptr (data.take contig_write)
    if contig < write_size then
      let buf2 := writeAt buf1 0 ((data.drop contig_write).take (write_size - contig_write))
      (write_size,
       { s with buffer := buf2, write_ptr := write_size - contig_write,
                filled := s.filled + write_size })
    else
      (write_size,
       { s with buffer := buf1, write_ptr := s.write_ptr + contig_write,
                filled := s.filled + write_size })
  else
    (write_size, { s with filled := s.filled + write_size })

/-- Well-formedness: the pointer/fill accounting of a reachable FIFO.
The write pointer sits `filled` bytes (circularly) after the read
pointer; a pointer value of `size` denotes the same position as `0`. -/
def BytesFIFO.WF (s : BytesFIFO) : Prop :=
  s.buffer.length = s.size ∧ s.filled ≤ s.size ∧ s.read_ptr ≤ s.size ∧
    s.write_ptr ≤ s.size ∧
    (s.read_ptr + s.filled = s.write_ptr ∨ s.read_ptr + s.filled = s.write_ptr + s.size)

/-- The byte sequence currently buffered, in FIFO order: `filled`
bytes starting at the read pointer, wrapping around. -/
def BytesFIFO.contents (s : BytesFIFO) : List Nat :=
  ((s.buffer.drop s.read_ptr) ++ s.buffer.take s.read_ptr).take s.filled

theorem BytesFIFO.init_wf (n : Nat) : (BytesFIFO.init n).WF := by
  simp [BytesFIFO.init, BytesFIFO.WF]

theorem BytesFIFO.init_contents (n : Nat) : (BytesFIFO.init n).contents = [] := by
  simp [BytesFIFO.init, BytesFIFO.contents]

-- Sanity anchors: a 4-byte FIFO, written and drained across the wrap.
example : ((BytesFIFO.init 4).write [1, 2, 3]).1 = 3 := by decide
example : (((BytesFIFO.init 4).write [1, 2, 3]).2.read 2).1 = [1, 2] := by decide
example :
    (((((BytesFIFO.init 4).write [1, 2, 3]).2.read 2).2.write [4, 5, 6]).2.read (-1)).1
      = [3, 4, 5, 6] := by decide
example : ((BytesFIFO.init 4).write [1, 2, 3, 4, 5]).1 = 4 := by decide


/-- The write/read contracts of the streaming buffer, proved from the
transcribed code against the circular-buffer well-formedness invariant. -/
theorem BytesFIFO.write_spec (s : BytesFIFO) (data : List Nat) (hwf : s.WF) :
    (s.write data).1 = min data.length (s.size - s.filled) ∧
    (s.write data).2.WF ∧ (s.write data).2.size = s.size ∧
    (s.write data).2.contents = s.contents ++ data.take (s.write data).1 := by
  obtain ⟨L, n, f, rp, wp⟩ := s
  obtain ⟨hL, hf, hrp, hwp, hdisj⟩ := hwf
  simp only [BytesFIFO.write, BytesFIFO.WF, BytesFIFO.contents] at *
  by_cases hw : min data.length (n - f) = 0
  · -- nothing is accepted: the buffer is full or no data was given
    rw [if_neg (not_not_intro hw)]
    dsimp only
    refine ⟨rfl, ⟨hL, by omega, by omega, by omega, by omega⟩, rfl, ?_⟩
    rw [hw, Nat.add_zero, List.take_zero, List.append_nil]
  · by_cases hwrap : n - wp < min data.length (n - f)
    · -- wrap branch: the write crosses the end of the buffer
      rw [if_pos hw, if_pos hwrap]
      dsimp only
      set w := data.length ⊓ (n - f) with hweq
      have hd : rp + f = wp := by
        rcases hdisj with hd | hd
        · exact hd
        · omega
      have hcw : (n - wp) ⊓ w = n - wp := by omega
      rw [hcw]
      have hda : (data.take (n - wp)).length = n - wp := by
        rw [List.length_take]; omega
      have hch : ((data.drop (n - wp)).take (w - (n - wp))).length = w - (n - wp) := by
        rw [List.length_take, List.length_drop]; omega
      have htwl : (L.take wp).length = wp := by rw [List.length_take]; omega
      have hb1 : writeAt L wp (data.take (n - wp)) = L.take wp ++ data.take (n - wp) := by
        rw [writeAt, hda, (by omega : wp + (n - wp) = n),
          List.drop_of_length_le hL.le, List.append_nil]
      have hb1len : (L.take wp ++ data.take (n - wp)).length = n := by
        rw [List.length_append, htwl, hda]; omega
      have hb2 : writeAt (writeAt L wp (data.take (n - wp))) 0
          ((data.drop (n - wp)).take (w - (n - wp)))
          = (data.drop (n - wp)).take (w - (n - wp))
            ++ (L.take wp ++ data.take (n - wp)).drop (w - (n - wp)) := by
        rw [hb1, writeAt, List.take_zero, List.nil_append, Nat.zero_add, hch]
      have hlen2 : (writeAt (writeAt L wp (data.take (n - wp))) 0
          ((data.drop (n - wp)).take (w - (n - wp)))).length = n := by
        rw [hb2, List.length_append, hch, List.length_drop, hb1len]
        omega
      refine ⟨rfl, ⟨hlen2, by omega, by omega, by omega, by omega⟩, rfl, ?_⟩
      rw [hb2]
      have h1 : ((data.drop (n - wp)).take (w - (n - wp))
            ++ (L.take wp ++ data.take (n - wp)).drop (w - (n - wp))).drop rp
          = (L.drop rp).take f ++ data.take (n - wp) := by
        rw [List.drop_append_eq_append_drop, hch,
          List.drop_of_length_le
            (show ((data.drop (n - wp)).take (w - (n - wp))).length ≤ rp by
              rw [hch]; omega),
          List.nil_append, List.drop_drop,
          (by omega : w - (n - wp) + (rp - (w - (n - wp))) = rp),
          List.drop_append_eq_append_drop, htwl, (by omega : rp - wp = 0),
          List.drop_zero, List.drop_take, (by omega : wp - rp = f)]
      have h2 : ((data.drop (n - wp)).take (w - (n - wp))
            ++ (L.take wp ++ data.take (n - wp)).drop (w - (n - wp))).take rp
          = (data.drop (n - wp)).take (w - (n - wp))
            ++ ((L.take wp ++ data.take (n - wp)).drop (w - (n - wp))).take
                (rp - (w - (n - wp))) := by
        rw [List.take_append_eq_append_take, hch,
          List.take_of_length_le
            (show ((data.drop (n - wp)).take (w - (n - wp))).length ≤ rp by
              rw [hch]; omega)]
      rw [h1, h2]
      have hlh1 : ((L.drop rp).take f ++ data.take (n - wp)).length = f + (n - wp) := by
        rw [List.length_append, List.length_take, List.length_take,
          List.length_drop, hL]
        omega
      rw [List.take_append_eq_append_take, hlh1,
        List.take_of_length_le
          (show ((L.drop rp).take f ++ data.take (n - wp)).length ≤ f + w by
            rw [hlh1]; omega),
        (by omega : f + w - (f + (n - wp)) = w - (n - wp)),
        List.take_append_eq_append_take, hch,
        List.take_of_length_le hch.le,
        (by omega : w - (n - wp) - (w - (n - wp)) = 0), List.take_zero,
        List.append_nil]
      rw [List.take_append_eq_append_take,
        (show f - (List.drop rp L).length = 0 by rw [List.length_drop, hL]; omega),
        List.take_zero, List.append_nil]
      have h3 : data.take (n - wp) ++ (data.drop (n - wp)).take (w - (n - wp))
          = data.take w := by
        rw [← List.take_add]
        exact congrArg (fun k => data.take k) (by omega)
      rw [List.append_assoc, h3]
    · -- no-wrap branch
      rw [if_pos hw, if_neg hwrap]
      dsimp only
      set w := data.length ⊓ (n - f) with hweq
      have hcw : (n - wp) ⊓ w = w := by omega
      rw [hcw]
      have hdw : (data.take w).length = w := by rw [List.length_take]; omega
      have htwl : (L.take wp).length = wp := by rw [List.length_take]; omega
      have hlen : (writeAt L wp (data.take w)).length = n := by
        rw [writeAt_length _ _ _ (by omega)]; exact hL
      refine ⟨rfl, ⟨hlen, by omega, by omega, by omega, by omega⟩, rfl, ?_⟩
      rcases hdisj with hd | hd
      · -- rp + f = wp : unwrapped content
        have h1 : (writeAt L wp (data.take w)).drop rp
            = (L.drop rp).take f ++ (data.take w ++ L.drop (wp + w)) := by
          rw [writeAt, hdw, List.append_assoc, List.drop_append_eq_append_drop, htwl,
            (by omega : rp - wp = 0), List.drop_zero, List.drop_take,
            (by omega : wp - rp = f)]
        have h2 : (writeAt L wp (data.take w)).take rp = L.take rp := by
          rw [writeAt, hdw, List.append_assoc, List.take_append_eq_append_take, htwl,
            (by omega : rp - wp = 0), List.take_zero, List.append_nil, List.take_take,
            (by omega : rp ⊓ wp = rp)]
        rw [h1, h2]
        have hlf : ((L.drop rp).take f).length = f := by
          rw [List.length_take, List.length_drop, hL]; omega
        rw [List.append_assoc, List.take_append_eq_append_take, hlf,
          List.take_of_length_le (by omega), (by omega : f + w - f = w),
          List.take_append_eq_append_take]
        have h3 : List.take w (List.take w data ++ List.drop (wp + w) L)
            = List.take w data := by
          rw [List.take_append_eq_append_take, List.take_of_length_le (by omega),
            (by rw [hdw] : w - (List.take w data).length = w - w),
            (by omega : w - w = 0), List.take_zero, List.append_nil]
        have h4 : List.take (w - (List.take w data ++ List.drop (wp + w) L).length)
            (List.take rp L) = [] := by
          rw [(by rw [List.length_append, hdw]; omega :
            w - (List.take w data ++ List.drop (wp + w) L).length = 0), List.take_zero]
        have h5 : List.take f (List.drop rp L ++ List.take rp L)
            = List.take f (List.drop rp L) := by
          rw [List.take_append_eq_append_take,
            (by rw [List.length_drop, hL]; omega : f - (List.drop rp L).length = 0),
            List.take_zero, List.append_nil]
        rw [h3, h4, h5, List.append_nil]
      · -- rp + f = wp + n : wrapped content
        have hB : writeAt L wp (List.take w data)
            = L.take wp ++ (List.take w data ++ L.drop (wp + w)) := by
          rw [writeAt, hdw, List.append_assoc]
        rw [hB]
        have h1 : (L.take wp ++ (List.take w data ++ L.drop (wp + w))).drop rp
            = L.drop rp := by
          rw [List.drop_append_eq_append_drop, htwl,
            List.drop_of_length_le (by rw [htwl]; omega),
            List.drop_append_eq_append_drop, hdw,
            List.drop_of_length_le (by rw [hdw]; omega),
            List.drop_drop, List.nil_append, List.nil_append]
          exact congrArg (fun k => List.drop k L) (by omega)
        have h2 : (L.take wp ++ (List.take w data ++ L.drop (wp + w))).take rp
            = L.take wp ++ (List.take w data
                ++ (L.drop (wp + w)).take (rp - wp - w)) := by
          rw [List.take_append_eq_append_take, htwl,
            List.take_of_length_le
              (show (List.take wp L).length ≤ rp by rw [htwl]; omega),
            List.take_append_eq_append_take, hdw,
            List.take_of_length_le
              (show (List.take w data).length ≤ rp - wp by rw [hdw]; omega)]
        rw [h1, h2]
        have hl1 : (L.drop rp).length = n - rp := by rw [List.length_drop, hL]
        rw [List.take_append_eq_append_take, hl1,
          List.take_of_length_le
            (show (List.drop rp L).length ≤ f + w by rw [List.length_drop, hL]; omega),
          (by omega : f + w - (n - rp) = wp + w),
          List.take_append_eq_append_take, htwl,
          List.take_of_length_le
            (htwl.le.trans (Nat.le_add_right wp w)),
          (by omega : wp + w - wp = w),
          List.take_append_eq_append_take, hdw,
          List.take_of_length_le
            hdw.le,
          (by omega : w - w = 0), List.take_zero, List.append_nil]
        rw [List.take_append_eq_append_take, hl1,
          List.take_of_length_le
            (show (List.drop rp L).length ≤ f by rw [List.length_drop, hL]; omega),
          (by omega : f - (n - rp) = wp), List.take_take,
          (by omega : wp ⊓ rp = wp)]
        simp [List.append_assoc]

theorem BytesFIFO.read_spec (s : BytesFIFO) (reqSize : Int) (hwf : s.WF) :
    (s.read reqSize).1
        = s.contents.take (min (if reqSize < 0 then s.filled else reqSize.toNat) s.filled) ∧
    (s.read reqSize).2.WF ∧ (s.read reqSize).2.size = s.size ∧
    (s.read reqSize).2.contents
        = s.contents.drop (min (if reqSize < 0 then s.filled else reqSize.toNat) s.filled) := by
  obtain ⟨L, n, f, rp, wp⟩ := s
  obtain ⟨hL, hf, hrp, hwp, hdisj⟩ := hwf
  simp only [BytesFIFO.read, BytesFIFO.WF, BytesFIFO.contents] at *
  set sz0 := (if reqSize < 0 then f else reqSize.toNat) with hq
  set sz := sz0 ⊓ f with hsz
  have hszf : sz ≤ f := by omega
  have hld : (L.drop rp).length = n - rp := by rw [List.length_drop, hL]
  by_cases hnw : (n - rp) ⊓ sz < sz
  · -- the read wraps around the end of the buffer
    rw [if_pos hnw]
    dsimp only
    have hle : n - rp < sz := by omega
    have hcr : (n - rp) ⊓ sz = n - rp := by omega
    rw [hcr]
    have hd : rp + f = wp + n := by
      rcases hdisj with hd | hd
      · omega
      · exact hd
    refine ⟨?_, ⟨hL, by omega, by omega, by omega, by omega⟩, rfl, ?_⟩
    · rw [List.take_take, (by omega : sz ⊓ f = sz),
        List.take_append_eq_append_take, hld, List.take_take,
        (by omega : (sz - (n - rp)) ⊓ rp = sz - (n - rp)),
        List.take_of_length_le (hld.le.trans (by omega : n - rp ≤ sz)),
        List.take_of_length_le (le_of_eq hld)]
    · rw [List.drop_take, List.drop_append_eq_append_drop, hld, List.drop_drop,
        List.drop_of_length_le (show L.length ≤ rp + sz by omega), List.nil_append,
        List.drop_take, List.take_take,
        List.take_append_eq_append_take,
        (show f - sz - (L.drop (sz - (n - rp))).length = 0 by
          rw [List.length_drop, hL]; omega),
        List.take_zero, List.append_nil]
      exact congrArg (fun k => List.take k (L.drop (sz - (n - rp)))) (by omega)
  · -- contiguous read
    rw [if_neg hnw]
    dsimp only
    have hcr : (n - rp) ⊓ sz = sz := by omega
    rw [hcr]
    refine ⟨?_, ⟨hL, by omega, by omega, by omega, by omega⟩, rfl, ?_⟩
    · rw [List.take_take, (by omega : sz ⊓ f = sz),
        List.take_append_eq_append_take, hld,
        (by omega : sz - (n - rp) = 0), List.take_zero, List.append_nil]
    · have h5 : ((L.drop rp ++ L.take rp).take f).drop sz
          = (L.drop (rp + sz) ++ L.take rp).take (f - sz) := by
        rw [List.drop_take, List.drop_append_eq_append_drop, hld,
          (by omega : sz - (n - rp) = 0), List.drop_zero, List.drop_drop]
      rw [h5]
      have hldd : (L.drop (rp + sz)).length = n - (rp + sz) := by
        rw [List.length_drop, hL]
      rw [List.take_append_eq_append_take, List.take_append_eq_append_take, hldd,
        List.take_take, List.take_take]
      exact congrArg
        (fun t => List.take (f - sz) (L.drop (rp + sz)) ++ t)
        (congrArg (fun k => List.take k L) (by omega))

/-- One client call on the streaming buffer: `fifo.write(data)` or
`fifo.read(size)` (a negative size reads everything buffered). -/
inductive FIFOOp where
  | write (data : List Nat) : FIFOOp
  | read (reqSize : Int) : FIFOOp

/-- Run an interleaved sequence of write/read calls, returning the final
buffer state, the concatenation of the byte chunks each write accepted,
and the concatenation of the byte chunks the reads returned. -/
def runFIFO : BytesFIFO → List FIFOOp → BytesFIFO × List Nat × List Nat
  | s, [] => (s, [], [])
  | s, FIFOOp.write d :: ops =>
      ((runFIFO (s.write d).2 ops).1,
       d.take (s.write d).1 ++ (runFIFO (s.write d).2 ops).2.1,
       (runFIFO (s.write d).2 ops).2.2)
  | s, FIFOOp.read q :: ops =>
      ((runFIFO (s.read q).2 ops).1,
       (runFIFO (s.read q).2 ops).2.1,
       (s.read q).1 ++ (runFIFO (s.read q).2 ops).2.2)

theorem runFIFO_inv (ops : List FIFOOp) (s : BytesFIFO) (hwf : s.WF) :
    (runFIFO s ops).1.WF ∧ (runFIFO s ops).1.size = s.size ∧
    (runFIFO s ops).2.2 ++ (runFIFO s ops).1.contents
      = s.contents ++ (runFIFO s ops).2.1 := by
  induction ops generalizing s with
  | nil =>
    refine ⟨hwf, rfl, ?_⟩
    simp [runFIFO]
  | cons op ops ih =>
    cases op with
    | write d =>
      obtain ⟨hk, hwf1, hsz1, hc1⟩ := BytesFIFO.write_spec s d hwf
      obtain ⟨h1, h2, h3⟩ := ih (s.write d).2 hwf1
      simp only [runFIFO]
      refine ⟨h1, by rw [h2, hsz1], ?_⟩
      rw [h3, hc1, List.append_assoc]
    | read q =>
      obtain ⟨hret, hwf1, hsz1, hc1⟩ := BytesFIFO.read_spec s q hwf
      obtain ⟨h1, h2, h3⟩ := ih (s.read q).2 hwf1
      simp only [runFIFO]
      refine ⟨h1, by rw [h2, hsz1], ?_⟩
      rw [List.append_assoc, h3, hc1, hret, ← List.append_assoc,
        List.take_append_drop]

/-- **C8**: For the streaming buffer (`BytesFIFO`, backuproll.py:110-195),
any interleaved sequence of write and read calls with arbitrary chunk
sizes — including sequences whose total written volume exceeds the
capacity across multiple fill/drain (wrap-around) cycles — yields on the
read side exactly the concatenation of the accepted written bytes in the
order written, with no loss, duplication, or reordering: from an empty
buffer of any capacity, readout ++ remaining-contents = accepted-writes.
Moreover each write returns the number of bytes accepted, which is
min(len(data), free space), and appends exactly those bytes to the
buffered sequence; each read returns exactly the oldest
min(requested, buffered) buffered bytes (all buffered bytes when the
requested size is negative) and removes them. -/
theorem bytesFIFO_roundtrip (capacity : Nat) (s : BytesFIFO) (hwf : s.WF)
    (data : List Nat) (reqSize : Int) (ops : List FIFOOp) :
    (s.write data).1 = min data.length (s.size - s.filled) ∧
    (s.write data).2.contents = s.contents ++ data.take (s.write data).1 ∧
    (s.read reqSize).1
      = s.contents.take (min (if reqSize < 0 then s.filled else reqSize.toNat) s.filled) ∧
    (s.read reqSize).2.contents
      = s.contents.drop (min (if reqSize < 0 then s.filled else reqSize.toNat) s.filled) ∧
    (runFIFO (BytesFIFO.init capacity) ops).2.2
        ++ (runFIFO (BytesFIFO.init capacity) ops).1.contents
      = (runFIFO (BytesFIFO.init capacity) ops).2.1 := by
  obtain ⟨hw1, _, _, hw4⟩ := BytesFIFO.write_spec s data hwf
  obtain ⟨hr1, _, _, hr4⟩ := BytesFIFO.read_spec s reqSize hwf
  obtain ⟨_, _, h3⟩ := runFIFO_inv ops (BytesFIFO.init capacity) (BytesFIFO.init_wf capacity)
  rw [BytesFIFO.init_contents, List.nil_append] at h3
  exact ⟨hw1, hw4, hr1, hr4, h3⟩

/-- C8 witness: capacity-4 buffer; the op sequence writes 3 bytes, reads 2,
writes 4 more (wrapping around the end of the 4-byte buffer, with all 4
accepted only as far as free space allows), then drains; the recombined
readout matches the accepted writes. -/
theorem bytesFIFO_roundtrip_witness :
    (BytesFIFO.init 4).WF ∧
    ((BytesFIFO.init 4).write [9, 9, 9, 9, 9]).1 = min 5 4 ∧
    (runFIFO (BytesFIFO.init 4)
        [FIFOOp.write [1, 2, 3], FIFOOp.read 2, FIFOOp.write [4, 5, 6, 7],
         FIFOOp.read (-1)]).2.2
      ++ (runFIFO (BytesFIFO.init 4)
        [FIFOOp.write [1, 2, 3], FIFOOp.read 2, FIFOOp.write [4, 5, 6, 7],
         FIFOOp.read (-1)]).1.contents
      = (runFIFO (BytesFIFO.init 4)
        [FIFOOp.write [1, 2, 3], FIFOOp.read 2, FIFOOp.write [4, 5, 6, 7],
         FIFOOp.read (-1)]).2.1 :=
  ⟨BytesFIFO.init_wf 4,
   (bytesFIFO_roundtrip 4 (BytesFIFO.init 4) (BytesFIFO.init_wf 4) [9, 9, 9, 9, 9] 2
      [FIFOOp.write [1, 2, 3], FIFOOp.read 2, FIFOOp.write [4, 5, 6, 7],
       FIFOOp.read (-1)]).1,
   (bytesFIFO_roundtrip 4 (BytesFIFO.init 4) (BytesFIFO.init_wf 4) [9, 9, 9, 9, 9] 2
      [FIFOOp.write [1, 2, 3], FIFOOp.read 2, FIFOOp.write [4, 5, 6, 7],
       FIFOOp.read (-1)]).2.2.2.2⟩

-- Concrete sanity evaluation of the wrap-around sequence above: the two
-- reads return [1, 2] and then [3, 4, 5, 6]; the second write accepts
-- only [4, 5, 6] (3 bytes of free space) and wraps past the end.
example :
    (runFIFO (BytesFIFO.init 4)
        [FIFOOp.write [1, 2, 3], FIFOOp.read 2, FIFOOp.write [4, 5, 6, 7],
         FIFOOp.read (-1)]).2.2 = [1, 2, 3, 4, 5, 6] := by decide

example :
    ((BytesFIFO.init 4).write [9, 9, 9, 9, 9]).1 = 4 := by decide

end Backuproll
